import Mathlib

/-!
Verification of the standardizer service's batch dispatch core.

This file gives a shallow embedding, in Lean 4, of the group-keyed batch
dispatch engine of the repository:

  * `src/services/ai_standardizer.py` — `AIStandardizer._get_okpd_group`,
    `_prepare_cached_content`, `_refresh_cache_if_needed`,
    `standardize_batch`, `_parse_response`;
  * `src/services/standardizer.py` — the reconciliation part of
    `StandardizationService.process_batch` (status updates and the
    unstandardized-attribute diff);
  * `src/models/standardization.py` — `StandardizedAttribute`,
    `ProductForStandardization`, `ProductAttribute`.

Modelling conventions:

  * Python dicts are association lists with insert-or-replace-in-place
    update (`dictInsert`), preserving insertion order like CPython dicts.
    Dict keys producible by the code here are JSON values (the oracle's
    `product_id` fields) or strings; equality is structural (the Python
    cross-type quirks `1 == True`, `1 == 1.0` are outside the model).
  * JSON values (results of `json.loads`) are the inductive `Json`;
    `json.loads` itself is an external library routine and is passed in
    as a parameter `decode : String → Option Json` (`none` models
    `json.JSONDecodeError`), exactly like the oracle transport is passed
    in as a function.
  * The oracle transport (`AIStandardizer._send_request`) is a parameter
    `Oracle`; `Except.error` models a raised transport exception.
  * Python strings are Lean `String`s; slicing, `len`, `find`, `rfind`,
    `replace`, `startswith`, `in` (substring) and `lower` are modelled on
    the code-point list `String.data`, which matches Python's code-point
    indexing.  `pyCharLower` covers ASCII and Cyrillic (the repertoire of
    every name the service manipulates); other characters are unchanged.
  * `time.time()` is a `Nat` parameter `now`.
-/

-- JSON values as produced by `json.loads`: `null`, booleans, numbers
-- (restricted to integers; no claim involves float arithmetic), strings,
-- arrays and string-keyed objects.  Mutual (rather than nested) inductives
-- so that decidable equality derives and evaluates in the kernel.
mutual
inductive Json where
  | null : Json
  | bool (b : Bool) : Json
  | num (n : Int) : Json
  | str (s : String) : Json
  | arr (xs : JsonList) : Json
  | obj (kvs : JsonKVs) : Json
deriving DecidableEq, Repr
inductive JsonList where
  | nil : JsonList
  | cons (x : Json) (xs : JsonList) : JsonList
deriving DecidableEq, Repr
inductive JsonKVs where
  | nil : JsonKVs
  | cons (k : String) (v : Json) (rest : JsonKVs) : JsonKVs
deriving DecidableEq, Repr
end

/-- Python `dict.get(k)` on a loaded JSON object (keys of a dict produced
by `json.loads` are unique, so first-match lookup is exact). -/
def JsonKVs.get : JsonKVs → String → Option Json
  | .nil, _ => none
  | .cons k v rest, key => if k = key then some v else rest.get key

/-- Python truthiness of a JSON value (`if not x`): `None`, `False`, `0`,
`""`, `[]` and `{}` are falsy, everything else truthy. -/
def Json.truthy : Json → Bool
  | .null => false
  | .bool b => b
  | .num n => n ≠ 0
  | .str s => ¬ s.data.isEmpty
  | .arr .nil => false
  | .arr (.cons _ _) => true
  | .obj .nil => false
  | .obj (.cons _ _ _) => true

/-- Association list with Python-dict semantics: `m[k] = v` replaces the
value in place when the key is present, else appends the pair. -/
def dictInsert {κ α : Type} [DecidableEq κ] : List (κ × α) → κ → α → List (κ × α)
  | [], k, v => [(k, v)]
  | (k', v') :: rest, k, v =>
    if k' = k then (k', v) :: rest else (k', v') :: dictInsert rest k v

/-- Python `m.get(k)` / `k in m` support: first-match lookup. -/
def dictGet {κ α : Type} [DecidableEq κ] : List (κ × α) → κ → Option α
  | [], _ => none
  | (k', v) :: rest, k => if k' = k then some v else dictGet rest k

/-- Python `m.update(m2)`: fold `m2`'s pairs into `m` in order. -/
def dictUpdate {κ α : Type} [DecidableEq κ] (m m2 : List (κ × α)) : List (κ × α) :=
  m2.foldl (fun acc kv => dictInsert acc kv.1 kv.2) m

/-- Keys of an association list, in order. -/
def dictKeys {κ α : Type} (m : List (κ × α)) : List κ := m.map (·.1)

theorem dictGet_insert_self {κ α : Type} [DecidableEq κ] (m : List (κ × α)) (k : κ) (v : α) :
    dictGet (dictInsert m k v) k = some v := by
  induction m with
  | nil => simp [dictInsert, dictGet]
  | cons kv rest ih =>
    obtain ⟨k', v'⟩ := kv
    by_cases h : k' = k <;> simp [dictInsert, dictGet, h, ih]

theorem dictUpdate_nil {κ α : Type} [DecidableEq κ] (m : List (κ × α)) :
    dictUpdate m [] = m := rfl

theorem dictUpdate_cons {κ α : Type} [DecidableEq κ] (m : List (κ × α)) (kv : κ × α)
    (rest : List (κ × α)) : dictUpdate m (kv :: rest) = dictUpdate (dictInsert m kv.1 kv.2) rest :=
  rfl

theorem dictGet_insert_ne {κ α : Type} [DecidableEq κ] (m : List (κ × α)) (k k' : κ) (v : α)
    (h : k' ≠ k) : dictGet (dictInsert m k v) k' = dictGet m k' := by
  induction m with
  | nil => simp [dictInsert, dictGet, Ne.symm h]
  | cons kv rest ih =>
    obtain ⟨k₀, v₀⟩ := kv
    by_cases h0 : k₀ = k
    · subst h0
      simp [dictInsert, dictGet, Ne.symm h]
    · by_cases h1 : k₀ = k' <;> simp [dictInsert, dictGet, h0, h1, h, ih]

theorem dictGet_isSome_of_insert {κ α : Type} [DecidableEq κ] (m : List (κ × α)) (k k' : κ)
    (v : α) (h : (dictGet m k').isSome) : (dictGet (dictInsert m k v) k').isSome := by
  by_cases hk : k' = k
  · subst hk; simp [dictGet_insert_self]
  · rwa [dictGet_insert_ne _ _ _ _ hk]

theorem dictGet_update_isSome_left {κ α : Type} [DecidableEq κ] (m m2 : List (κ × α)) (k : κ)
    (h : (dictGet m k).isSome) : (dictGet (dictUpdate m m2) k).isSome := by
  induction m2 generalizing m with
  | nil => simpa [dictUpdate] using h
  | cons kv rest ih =>
    rw [dictUpdate_cons]
    exact ih _ (dictGet_isSome_of_insert _ _ _ _ h)

theorem dictGet_update_of_not_mem {κ α : Type} [DecidableEq κ] (m m2 : List (κ × α)) (k : κ)
    (h : k ∉ dictKeys m2) : dictGet (dictUpdate m m2) k = dictGet m k := by
  induction m2 generalizing m with
  | nil => simp [dictUpdate]
  | cons kv rest ih =>
    simp only [dictKeys, List.map_cons, List.mem_cons] at h
    push_neg at h
    rw [dictUpdate_cons, ih _ (by simpa [dictKeys] using h.2),
      dictGet_insert_ne _ _ _ _ h.1]

theorem dictKeys_insert_of_mem {κ α : Type} [DecidableEq κ] (m : List (κ × α)) (k : κ) (v : α)
    (h : k ∈ dictKeys m) : dictKeys (dictInsert m k v) = dictKeys m := by
  induction m with
  | nil => simp [dictKeys] at h
  | cons kv rest ih =>
    obtain ⟨k₀, v₀⟩ := kv
    by_cases h0 : k₀ = k
    · simp [dictInsert, h0, dictKeys]
    · simp only [dictKeys, List.map_cons, List.mem_cons] at h
      rcases h with h | h
      · exact absurd h.symm h0
      · have ih' := ih (by simpa [dictKeys] using h)
        simp only [dictKeys, List.map_cons] at ih' ⊢
        simp [dictInsert, h0, ih']

theorem dictKeys_insert_of_not_mem {κ α : Type} [DecidableEq κ] (m : List (κ × α)) (k : κ) (v : α)
    (h : k ∉ dictKeys m) : dictKeys (dictInsert m k v) = dictKeys m ++ [k] := by
  induction m with
  | nil => simp [dictInsert, dictKeys]
  | cons kv rest ih =>
    obtain ⟨k₀, v₀⟩ := kv
    simp only [dictKeys, List.map_cons, List.mem_cons] at h
    push_neg at h
    have ih' := ih (by simpa [dictKeys] using h.2)
    simp only [dictKeys, List.map_cons] at ih' ⊢
    simp [dictInsert, Ne.symm h.1, ih']

/-- Python `s.replace(c, "")` for a one-character pattern: delete every
occurrence (used for `okpd2_code.replace(".", "")`). -/
def pyDeleteChar (s : String) (c : Char) : String := ⟨s.data.filter (fun d => d ≠ c)⟩

/-- Python `len(s)`: number of code points. -/
def pyLen (s : String) : Nat := s.data.length

/-- Python `s[:n]` (code-point slicing). -/
def pyTake (s : String) (n : Nat) : String := ⟨s.data.take n⟩

/-- Python `s[n:]` (code-point slicing). -/
def pyDrop (s : String) (n : Nat) : String := ⟨s.data.drop n⟩

/-- Python `s.startswith(p)`. -/
def pyStartsWith (s p : String) : Bool := p.data.isPrefixOf s.data

/-- Python `a in b` on strings: substring test. -/
def pySubstr (a b : String) : Bool := b.data.tails.any (fun t => a.data.isPrefixOf t)

/-- Python string `<=`: lexicographic comparison of code points (kernel-evaluable,
unlike `String.le`'s iterator-based decision procedure). -/
def lexLe : List Char → List Char → Bool
  | [], _ => true
  | _ :: _, [] => false
  | a :: as, b :: bs =>
    if a.toNat < b.toNat then true
    else if b.toNat < a.toNat then false
    else lexLe as bs

theorem lexLe_refl (as : List Char) : lexLe as as = true := by
  induction as with
  | nil => rfl
  | cons a as ih => simp [lexLe, ih]

theorem lexLe_total (as bs : List Char) : lexLe as bs = true ∨ lexLe bs as = true := by
  induction as generalizing bs with
  | nil => left; rfl
  | cons a as ih =>
    cases bs with
    | nil => right; rfl
    | cons b bs =>
      rcases Nat.lt_trichotomy a.toNat b.toNat with h | h | h
      · left; simp [lexLe, h]
      · have : ¬ a.toNat < b.toNat := by omega
        have : ¬ b.toNat < a.toNat := by omega
        rcases ih bs with h2 | h2
        · left; simp [lexLe, *]
        · right; simp [lexLe, *]
      · right; simp [lexLe, h]

theorem lexLe_trans (as bs cs : List Char) (h1 : lexLe as bs = true)
    (h2 : lexLe bs cs = true) : lexLe as cs = true := by
  induction as generalizing bs cs with
  | nil => rfl
  | cons a as ih =>
    cases bs with
    | nil => simp [lexLe] at h1
    | cons b bs =>
      cases cs with
      | nil => simp [lexLe] at h2
      | cons c cs =>
        simp only [lexLe] at h1 h2 ⊢
        by_cases hab : a.toNat < b.toNat <;> by_cases hba : b.toNat < a.toNat <;>
          by_cases hbc : b.toNat < c.toNat <;> by_cases hcb : c.toNat < b.toNat <;>
          simp only [hab, hba, hbc, hcb, if_true, if_false] at h1 h2 <;>
          first
            | exact absurd h1 Bool.false_ne_true
            | exact absurd h2 Bool.false_ne_true
            | simp [show a.toNat < c.toNat by omega]
            | · have hac : ¬ a.toNat < c.toNat := by omega
                have hca : ¬ c.toNat < a.toNat := by omega
                simp [hac, hca, ih bs cs h1 h2]

/-- Python string `<=` as a proposition, for `List.insertionSort`. -/
def pyStrLe (a b : String) : Prop := lexLe a.data b.data = true

instance : DecidableRel pyStrLe := fun a b => inferInstanceAs (Decidable (_ = true))

instance : IsTotal String pyStrLe := ⟨fun a b => lexLe_total a.data b.data⟩

instance : IsTrans String pyStrLe := ⟨fun a b c => lexLe_trans a.data b.data c.data⟩

/-- Python `sorted(xs)` on strings: some sorted permutation; since the code-point
order is a total antisymmetric order, every sorted permutation of a list is the
same list, so insertion sort models `sorted` exactly. -/
def pySorted (xs : List String) : List String := xs.insertionSort pyStrLe

theorem pySorted_pairwise (xs : List String) : (pySorted xs).Pairwise pyStrLe :=
  List.sorted_insertionSort pyStrLe xs

theorem pySorted_perm (xs : List String) : (pySorted xs).Perm xs :=
  List.perm_insertionSort pyStrLe xs

/-- In a `pyStrLe`-sorted list, the first element satisfying `p` is `pyStrLe`-below
every element satisfying `p`. -/
theorem find_first_is_min (p : String → Bool) :
    ∀ (l : List String), l.Pairwise pyStrLe → ∀ a, l.find? p = some a →
      ∀ b ∈ l, p b = true → pyStrLe a b := by
  intro l
  induction l with
  | nil => intro _ a ha; simp at ha
  | cons x xs ih =>
    intro hs a ha b hb hpb
    rcases List.pairwise_cons.mp hs with ⟨hx, hxs⟩
    by_cases hpx : p x
    · rw [List.find?_cons_of_pos _ hpx, Option.some_inj] at ha
      subst ha
      rcases List.mem_cons.mp hb with rfl | hb2
      · exact lexLe_refl _
      · exact hx b hb2
    · rw [List.find?_cons_of_neg _ hpx] at ha
      rcases List.mem_cons.mp hb with rfl | hb2
      · exact absurd hpb hpx
      · exact ih hxs a ha b hb2 hpb

/-- `AIStandardizer._get_okpd_group` (ai_standardizer.py lines 84-107); identical
code appears as `StandardsMatcher._get_okpd_group` (standards_matcher.py lines
26-45, minus logging).  `standardsKeys` is `self.okpd2_standards.keys()`; the
method reads no other instance state and writes none. -/
def get_okpd_group (standardsKeys : List String) (okpd2_code : String) : String :=
  if okpd2_code.data.isEmpty then ""
  else
    let clean_code := pyDeleteChar okpd2_code '.'
    if 4 ≤ pyLen clean_code then
      pyTake clean_code 2 ++ "." ++ pyTake (pyDrop clean_code 2) 2
    else if pyLen clean_code = 2 then
      let pre := pyTake clean_code 2
      match (pySorted standardsKeys).find? (fun key => pyStartsWith key (pre ++ ".")) with
      | some key => key
      | none => ""
    else ""

/-- `ProductAttribute` (models/standardization.py lines 15-18). -/
structure ProductAttribute where
  attr_name : String
  attr_value : String
deriving DecidableEq, Repr

/-- `StandardizedAttribute` (models/standardization.py lines 21-27): five
required (`Field(...)`) string fields.  Note `unit` is NOT a field of this
model class. -/
structure StandardizedAttribute where
  original_name : String
  original_value : String
  standard_name : String
  standard_value : String
  characteristic_type : String
deriving DecidableEq, Repr

/-- The constructor call in `_parse_response` (ai_standardizer.py lines 384-389):
`StandardizedAttribute(standard_name=attr.get("standard_name", ""),
standard_value=attr.get("standard_value", ""), unit=attr.get("unit"),
characteristic_type=attr.get("characteristic_type", ""))`.  Under pydantic
semantics the extra keyword `unit` is ignored (not a model field), but the
required fields `original_name` and `original_value` are never supplied, so the
call raises `ValidationError` for every object `attr`; for a non-object `attr`,
`attr.get` itself raises `AttributeError`.  Either exception is caught by the
surrounding per-record `try`/`except`. -/
def mk_standardized_attribute (attr : Json) : Except String StandardizedAttribute :=
  match attr with
  | .obj _ => .error "ValidationError: field required: original_name, original_value"
  | _ => .error "AttributeError: object has no attribute get"

/-- Modelled from the spec: section 3's `NormalizedAttribute`
(`{standardName, standardValue, unit?, characteristicType, originalName?,
originalValue?}`, the optional fields varying by schema generation), used to
exhibit what section 4.4's per-record conversion would produce if the record
conversion could succeed. -/
structure NormalizedAttributeSpec where
  standard_name : String
  standard_value : String
  unit : Option String
  characteristic_type : String
  original_name : Option String
  original_value : Option String
deriving DecidableEq, Repr

/-- Modelled from the spec: section 4.4 "Each element's `standardized_attributes`
array is converted to NormalizedAttribute records" — the conversion of one
record, reading the four documented output-format keys and the two optional
original-attribute keys. -/
def spec_convert_attribute (attr : Json) : Option NormalizedAttributeSpec :=
  match attr with
  | .obj kvs =>
    let getStr : String → String → String := fun k d =>
      match kvs.get k with | some (.str s) => s | _ => d
    let getOptStr : String → Option String := fun k =>
      match kvs.get k with | some (.str s) => some s | _ => none
    some { standard_name := getStr "standard_name" ""
           standard_value := getStr "standard_value" ""
           unit := getOptStr "unit"
           characteristic_type := getStr "characteristic_type" ""
           original_name := getOptStr "original_name"
           original_value := getOptStr "original_value" }
  | _ => none

/-- Conversion of `JsonList` to `List Json` (iteration over a loaded JSON array). -/
def JsonList.toList : JsonList → List Json
  | .nil => []
  | .cons x xs => x :: xs.toList

/-- The per-product results dictionary of `_parse_response`: keys are the raw
`product_id` JSON values (Python keys a dict by the value itself). -/
abbrev ResultMap := List (Json × List StandardizedAttribute)

/-- Python `s.find(c)`: index of the first occurrence, `None` for Python's `-1`. -/
def pyFindChar (s : String) (c : Char) : Option Nat := s.data.findIdx? (fun d => d = c)

/-- Python `s.rfind(c)`: index of the last occurrence, `None` for Python's `-1`. -/
def pyRFindChar (s : String) (c : Char) : Option Nat :=
  match s.data.reverse.findIdx? (fun d => d = c) with
  | some i => some (s.data.length - 1 - i)
  | none => none

/-- The element loop of `_parse_response` (ai_standardizer.py lines 376-395) over
the decoded JSON array.  Per element: a non-object raises `AttributeError` at
`product_data.get` — caught by the outer `except`, which returns the results
accumulated so far; a falsy `product_id` (absent key, `null`, `""`, `0`, ...) is
skipped by `continue`; `standardized_attributes` defaults to `[]`, an array is
converted record by record (each failing conversion skipped individually), a
string or object value iterates as characters/keys whose `.get` fails inside the
per-record `try` (yielding an empty list), and any other value raises
`TypeError` at the `for` — again caught by the outer `except` with the partial
results returned. -/
def parse_items : List Json → ResultMap → ResultMap
  | [], results => results
  | item :: rest, results =>
    match item with
    | .obj kvs =>
      let pid := (kvs.get "product_id").getD .null
      if pid.truthy = false then parse_items rest results
      else
        match (kvs.get "standardized_attributes").getD (.arr .nil) with
        | .arr attrs =>
          parse_items rest (dictInsert results pid
            (attrs.toList.filterMap (fun a => (mk_standardized_attribute a).toOption)))
        | .str _ => parse_items rest (dictInsert results pid [])
        | .obj _ => parse_items rest (dictInsert results pid [])
        | _ => results
    | _ => results

/-- `AIStandardizer._parse_response` (ai_standardizer.py lines 359-403).
`decode` is `json.loads` (an external library routine): `none` models
`json.JSONDecodeError` or any other raised decoding error, both caught and
yielding the empty dict.  The raw text is sliced from the first `[` to the last
`]` inclusive; if either is absent (`find` returns -1 / `rfind` returns -1 so
`json_end == 0`), the empty dict is returned. -/
def parse_response (decode : String → Option Json) (response : String) : ResultMap :=
  match pyFindChar response '[', pyRFindChar response ']' with
  | some js, some je =>
    let json_str : String := ⟨(response.data.drop js).take (je + 1 - js)⟩
    match decode json_str with
    | some (.arr items) => parse_items items.toList []
    | some _ => []
    | none => []
  | _, _ => []

/-- `ProductForStandardization` (models/standardization.py lines 30-46),
restricted to the fields `standardize_batch` reads: `id` (alias `_id`),
`title`, `okpd2_code`, `attributes`.  The remaining fields (`old_mongo_id`,
`collection_name`) never reach the dispatch logic. -/
structure ProductForStandardization where
  id : String
  title : String
  okpd2_code : String
  attributes : List ProductAttribute
deriving DecidableEq, Repr

/-- The `product_id` property (models/standardization.py lines 43-46): returns `id`. -/
def ProductForStandardization.product_id (p : ProductForStandardization) : String := p.id

/-- `self.okpd2_standards`: the loaded `okpd2_groups` mapping, group key to
rule-set JSON. -/
abbrev OkpdStandards := List (String × Json)

-- A deterministic JSON serializer standing in for `json.dumps(...,
-- ensure_ascii=False, indent=2)`.  The exact whitespace/escaping of `json.dumps`
-- is not reproduced (no claim depends on the rendered characters); what matters
-- is that serialization is a pure function of the value, hence byte-identical
-- across calls for a fixed catalog.
mutual
def serializeJson : Json → String
  | .null => "null"
  | .bool true => "true"
  | .bool false => "false"
  | .num n => toString n
  | .str s => "\"" ++ s ++ "\""
  | .arr xs => "[" ++ serializeJsonList xs ++ "]"
  | .obj kvs => "\x7b" ++ serializeJsonKVs kvs ++ "\x7d"
def serializeJsonList : JsonList → String
  | .nil => ""
  | .cons x .nil => serializeJson x
  | .cons x (.cons y ys) => serializeJson x ++ ", " ++ serializeJsonList (.cons y ys)
def serializeJsonKVs : JsonKVs → String
  | .nil => ""
  | .cons k v .nil => "\"" ++ k ++ "\": " ++ serializeJson v
  | .cons k v (.cons k2 v2 rest) =>
    "\"" ++ k ++ "\": " ++ serializeJson v ++ ", " ++ serializeJsonKVs (.cons k2 v2 rest)
end

/-- The f-string template of `_prepare_cached_content` (ai_standardizer.py lines
119-160), with the group key and the serialized rule set interpolated at the
end.  Literal braces of the embedded JSON example are written with their code
points. -/
def cached_content_template (okpd_group standards_json : String) : String :=
  "ЗАДАЧА: Стандартизировать характеристики товаров согласно предоставленным стандартам ОКПД2.\n\nИНСТРУКЦИИ:\n1. Для каждого товара приведи атрибуты к стандартным названиям и значениям\n2. Используй ТОЛЬКО характеристики из предоставленного стандарта для данной группы ОКПД2\n3. Сопоставь исходные атрибуты с наиболее подходящими стандартными по смыслу\n4. Если атрибут не соответствует ни одной стандартной характеристике - НЕ включай его в результат\n5. Стандартизируй значения согласно допустимым вариантам из стандарта\n6. Возвращай результат СТРОГО в формате JSON без дополнительного текста\n\nПРАВИЛА СТАНДАРТИЗАЦИИ:\n- Название характеристики должно ТОЧНО соответствовать ключу из стандарта\n- Значение должно быть из списка \"values\" или с правильными единицами измерения из \"units\"\n- Если у характеристики есть единицы измерения - ОБЯЗАТЕЛЬНО укажи их в поле \"unit\"\n- При сопоставлении учитывай смысл атрибута, а не только точное совпадение названия\n- Приводи единицы измерения к стандартным из списка \"units\"\n- Если значение не подходит под стандарт - выбери ближайшее подходящее или пропусти атрибут\n- characteristic_type - это ключ характеристики из стандарта\n\nПРИМЕРЫ СОПОСТАВЛЕНИЯ:\n- \"количество слоев: 2\" → standard_value: \"2\", unit: \"слой\"\n- \"вес 500г\" → standard_value: \"500\", unit: \"г\"\n- \"цвет изделия\" → \"Цвет\" (если есть в стандарте)\n- \"масса нетто\" → \"Вес\" (если есть в стандарте)\n\nФОРМАТ ВЫВОДА (массив JSON):\n[\n  \x7b\n    \"product_id\": \"ID товара\",\n    \"standardized_attributes\": [\n      \x7b\n        \"standard_name\": \"Название из ключа стандарта\",\n        \"standard_value\": \"Стандартизированное значение\",\n        \"unit\": \"Единица измерения из units или null\",\n        \"characteristic_type\": \"Ключ характеристики из стандарта\"\n      \x7d\n    ]\n  \x7d\n]\n\nДОСТУПНЫЕ СТАНДАРТЫ ДЛЯ ГРУППЫ "
    ++ okpd_group ++ ":\n" ++ standards_json

/-- `AIStandardizer._prepare_cached_content` (ai_standardizer.py lines 109-162):
`None` when the group key has no entry in the loaded standards, else the
rendered instruction block for the group. -/
def prepare_cached_content (standards : OkpdStandards) (okpd_group : String) : Option String :=
  match dictGet standards okpd_group with
  | none => none
  | some rules => some (cached_content_template okpd_group (serializeJson rules))

/-- The mutable per-instance cache state of `AIStandardizer`: `self.group_caches`
(group key → rendered instruction text) and `self.last_cache_refresh` (group key
→ timestamp).  `self.cache_refresh_interval` is the constant 240. -/
structure CacheState where
  group_caches : List (String × String)
  last_cache_refresh : List (String × Nat)
deriving DecidableEq, Repr

/-- The oracle transport `AIStandardizer._send_request(dynamic_content,
cached_content, max_tokens)`: an external collaborator returning raw text;
`Except.error` models a raised transport/API exception (the method re-raises
every exception). -/
abbrev Oracle := String → String → Nat → Except String String

/-- A record of one oracle invocation (ghost instrumentation for stating which
partitions caused oracle traffic): the partition's group key, then the three
arguments of `_send_request`. -/
structure OracleCall where
  group : String
  dynamic_content : String
  cached_content : String
  max_tokens : Nat
deriving DecidableEq, Repr

/-- `AIStandardizer._refresh_cache_if_needed` (ai_standardizer.py lines 164-184).
Reads `time.time()` as `now`.  When the last refresh of the group is more than
240 s old and a truthy cached text exists, it sends a minimal (`max_tokens=10`)
request; on success the group's timestamp is set to `now`, on failure the
exception is swallowed (timestamp not set).  `group_caches` is never written. -/
def refresh_cache_if_needed (oracle : Oracle) (now : Nat) (okpd_group : String)
    (st : CacheState) : CacheState × List OracleCall :=
  let last_refresh := (dictGet st.last_cache_refresh okpd_group).getD 0
  if 240 < now - last_refresh then
    match dictGet st.group_caches okpd_group with
    | some cached_content =>
      if cached_content.data.isEmpty then (st, [])
      else
        match oracle "Тестовый товар" cached_content 10 with
        | .ok _ =>
          ({ st with last_cache_refresh := dictInsert st.last_cache_refresh okpd_group now },
           [⟨okpd_group, "Тестовый товар", cached_content, 10⟩])
        | .error _ => (st, [⟨okpd_group, "Тестовый товар", cached_content, 10⟩])
    | none => (st, [])
  else (st, [])

/-- The `products_data` JSON built in `standardize_batch` (ai_standardizer.py
lines 313-326) for one product. -/
def product_info_json (p : ProductForStandardization) : Json :=
  .obj (.cons "product_id" (.str p.product_id)
    (.cons "title" (.str p.title)
      (.cons "okpd2_code" (.str p.okpd2_code)
        (.cons "attributes" (.arr (attrs_json p.attributes)) .nil))))
where
  attrs_json : List ProductAttribute → JsonList
    | [] => .nil
    | a :: rest => .cons (.obj (.cons "name" (.str a.attr_name)
        (.cons "value" (.str a.attr_value) .nil))) (attrs_json rest)

/-- JSON array of `products_data` for a partition's product list. -/
def products_json : List ProductForStandardization → JsonList
  | [] => .nil
  | p :: rest => .cons (product_info_json p) (products_json rest)

/-- The `dynamic_content` string of `standardize_batch` (ai_standardizer.py
line 328). -/
def dynamic_content_for (ps : List ProductForStandardization) : String :=
  "\nТОВАРЫ ДЛЯ СТАНДАРТИЗАЦИИ:\n" ++ serializeJson (.arr (products_json ps))

/-- One step of the `products_by_group` dict-of-lists construction
(ai_standardizer.py lines 270-283): append the product to its group's list,
creating the group at the end of the dict on first occurrence. -/
def appendToGroup : List (String × List ProductForStandardization) → String →
    ProductForStandardization → List (String × List ProductForStandardization)
  | [], g, p => [(g, [p])]
  | (h, qs) :: rest, g, p =>
    if h = g then (h, qs ++ [p]) :: rest else (h, qs) :: appendToGroup rest g p

/-- The partition key of a product: its resolved OKPD2 group, or the sentinel
`"UNMAPPED"` when the resolver returns a falsy (empty) string. -/
def group_key (standards : OkpdStandards) (p : ProductForStandardization) : String :=
  let g := get_okpd_group (dictKeys standards) p.okpd2_code
  if g.data.isEmpty then "UNMAPPED" else g

/-- `products_by_group` (ai_standardizer.py lines 270-283): partition of the
batch by group key, in first-occurrence order. -/
def products_by_group (standards : OkpdStandards)
    (products : List ProductForStandardization) :
    List (String × List ProductForStandardization) :=
  products.foldl (fun acc p => appendToGroup acc (group_key standards p) p) []

/-- Outcome of a `standardize_batch` run: the `all_results` dict, the final
cache state, and the (ghost) log of oracle invocations. -/
structure BatchOutcome where
  all_results : ResultMap
  state : CacheState
  calls : List OracleCall
deriving Repr

/-- Processing of one non-`"UNMAPPED"` partition inside `standardize_batch`
(ai_standardizer.py lines 296-355): ensure a cached instruction text exists
(on failure every product of the partition is assigned `[]` and the loop
continues — no oracle call); refresh the oracle-side cache if stale; send one
request with the partition's full product list; parse, then fill `[]` for every
partition product missing from the parsed results; a raised transport error
instead assigns `[]` to every product of the partition.  Returns the
partition's contribution to `all_results` (the source writes into
`all_results` directly; folding the returned contribution with Python dict
update semantics is the same assignments in the same order), the cache state,
and the calls made.  The cache-ensure step (lines 298-307) is split out as
`ensure_cache`: `none` models the `continue` taken when no truthy cached text
can be obtained. -/
def ensure_cache (standards : OkpdStandards) (st : CacheState) (g : String) : Option CacheState :=
  if (dictGet st.group_caches g).isSome then some st
  else
    match prepare_cached_content standards g with
    | none => none
    | some c =>
      if c.data.isEmpty then none
      else some { st with group_caches := dictInsert st.group_caches g c }

/-- Whether the cache-ensure step (ai_standardizer.py lines 298-307) can supply
a truthy cached text for the group: an entry already stored, or a renderable
(nonempty) instruction text for a group present in the standards.  Exactly when
this fails, the partition is answered with empty results and no oracle call. -/
def cache_available (standards : OkpdStandards) (st : CacheState) (g : String) : Bool :=
  (dictGet st.group_caches g).isSome ||
    (match prepare_cached_content standards g with
     | none => false
     | some c => ¬ c.data.isEmpty)

/-- The cached text `self.group_caches[okpd_group]` used for the partition's
main oracle call: the stored entry, or the freshly rendered text when the group
was not yet cached. -/
def effective_cached_content (standards : OkpdStandards) (st : CacheState) (g : String) : String :=
  match dictGet st.group_caches g with
  | some c => c
  | none => (prepare_cached_content standards g).getD ""

/-- The per-partition completion step of `standardize_batch` (ai_standardizer.py
lines 340-346): insert `[]` for the product when its id is not yet a key of the
parsed results. -/
def ensure_step (r : ResultMap) (p : ProductForStandardization) : ResultMap :=
  if (dictGet r (Json.str p.product_id)).isSome then r
  else dictInsert r (Json.str p.product_id) []

def process_group (decode : String → Option Json) (oracle : Oracle) (now : Nat)
    (standards : OkpdStandards) (st : CacheState) (g : String)
    (ps : List ProductForStandardization) : ResultMap × CacheState × List OracleCall :=
  match ensure_cache standards st g with
  | none => (ps.map (fun p => (Json.str p.product_id, [])), st, [])
  | some st1 =>
    let refreshed := refresh_cache_if_needed oracle now g st1
    let st2 := refreshed.1
    let cached := (dictGet st2.group_caches g).getD ""
    let dyn := dynamic_content_for ps
    match oracle dyn cached 4000 with
    | .error _ =>
      (ps.map (fun p => (Json.str p.product_id, [])), st2, refreshed.2 ++ [⟨g, dyn, cached, 4000⟩])
    | .ok raw =>
      let results := parse_response decode raw
      (ps.foldl ensure_step results, st2, refreshed.2 ++ [⟨g, dyn, cached, 4000⟩])

/-- One iteration of the partition loop of `standardize_batch` (ai_standardizer.py
lines 288-355): the `"UNMAPPED"` partition is never sent to the oracle — each of
its products is immediately assigned `[]`; any other partition goes through
`process_group` and its contribution is merged by dict update. -/
def group_step (decode : String → Option Json) (oracle : Oracle) (now : Nat)
    (standards : OkpdStandards) (acc : BatchOutcome)
    (entry : String × List ProductForStandardization) : BatchOutcome :=
  if entry.1 = "UNMAPPED" then
    { acc with all_results :=
        entry.2.foldl (fun r p => dictInsert r (Json.str p.product_id) []) acc.all_results }
  else
    let out := process_group decode oracle now standards acc.state entry.1 entry.2
    { all_results := dictUpdate acc.all_results out.1, state := out.2.1,
      calls := acc.calls ++ out.2.2 }

/-- `AIStandardizer.standardize_batch` (ai_standardizer.py lines 251-357).
An empty batch returns the empty dict immediately (`if not products`), touching
nothing.  Otherwise the batch is partitioned by group key and the partitions are
processed sequentially in first-occurrence order, threading the cache state. -/
def standardize_batch (decode : String → Option Json) (oracle : Oracle) (now : Nat)
    (standards : OkpdStandards) (st : CacheState)
    (products : List ProductForStandardization) : BatchOutcome :=
  if products.isEmpty then ⟨[], st, []⟩
  else
    (products_by_group standards products).foldl
      (group_step decode oracle now standards) ⟨[], st, []⟩

/-- One status-update record written by a `process_batch` cycle, restricted to
the fields every update carries: the claimed product's id, the
`standardization_status` written, and the `standardization_error` text.  Covers
both the in-loop failed records (standardizer.py lines 252-258) and the records
built by the cycle's exception handler (lines 286-295). -/
structure StatusUpdate where
  id : String
  standardization_status : String
  standardization_error : Option String
deriving DecidableEq, Repr

/-- The `str(e)` of the pydantic `ValidationError` raised by the
`StandardizedProduct(...)` construction at standardizer.py line 211: the model
(models/standardization.py lines 49-87) declares `title` and `okpd_group` as
required fields and the call supplies neither (the extra keyword
`unstandardized_attributes`, not a model field, is ignored).  The exact wording
of pydantic's message is not reproduced; no claim depends on it beyond its
presence as the recorded error text. -/
def validation_error_text : String :=
  "2 validation errors for StandardizedProduct: title field required; okpd_group field required"

/-- The `StandardizedProduct(...)` construction at standardizer.py line 211
under pydantic semantics: it raises `ValidationError` on every call, because
the required fields `title` and `okpd_group` are never passed.  It sits before
the `"standardized"` status append at line 241, so that append is dead code. -/
def mk_standardized_product : Except String Unit := Except.error validation_error_text

/-- The persisted outcome of `process_batch`'s reconciliation
(standardizer.py lines 151-298), as a function of the dispatcher's result map
and the claimed product ids (`product_map` iteration order; modelling the cycle
in which every claimed product survived the source fetch, so the exception
handler's `classified_products` are the same ids).  The loop takes the
standardized branch for every id that has an entry in the result map — even an
empty-list entry — but that branch unconditionally constructs
`StandardizedProduct` (line 211), which raises before the status append at
line 241; the exception escapes the loop, the in-loop `status_updates` list is
discarded (the write at line 267 is never reached), and the handler at lines
281-296 marks every claimed product `"failed"` with the exception text, then
re-raises (the `Bool` component).  Only when no claimed id has an entry does
the loop run to completion, persisting the in-loop
`("failed", "No standardization results")` records with no exception.  (The
same required-field defect would already abort the cycle at the
`ProductForStandardization` constructions of lines 89 and 123, upstream of the
span the claims cite; that failure only moves the crash earlier with the same
all-failed outcome, and this embedding starts, like the cited span, at
line 151 with the products already built.) -/
def process_batch_reconcile (results : ResultMap) (pids : List String) :
    List StatusUpdate × Bool :=
  if pids.any (fun pid => (dictGet results (Json.str pid)).isSome) then
    (pids.map (fun pid => ⟨pid, "failed", some validation_error_text⟩), true)
  else
    (pids.map (fun pid => ⟨pid, "failed", some "No standardization results"⟩), false)

/-- Python `str.lower()` on one character, covering ASCII and Cyrillic (the
character repertoire of the service's attribute names); other characters are
returned unchanged. -/
def pyCharLower (c : Char) : Char :=
  if 65 ≤ c.toNat ∧ c.toNat ≤ 90 then Char.ofNat (c.toNat + 32)
  else if 1040 ≤ c.toNat ∧ c.toNat ≤ 1071 then Char.ofNat (c.toNat + 32)
  else if c.toNat = 1025 then Char.ofNat 1105
  else c

/-- Python `s.lower()`. -/
def pyLower (s : String) : String := ⟨s.data.map pyCharLower⟩

/-- The inner coverage test of `process_batch` (standardizer.py lines 196-203):
an original attribute name (already lower-cased) counts as standardized when it
equals, contains, or is contained in the lower-cased `standard_name` of some
standardized attribute. -/
def is_attr_standardized (standardized_attrs : List StandardizedAttribute)
    (attr_name_lower : String) : Bool :=
  standardized_attrs.any fun std_attr =>
    attr_name_lower = pyLower std_attr.standard_name
      || pySubstr attr_name_lower (pyLower std_attr.standard_name)
      || pySubstr (pyLower std_attr.standard_name) attr_name_lower

/-- The unstandardized-attribute diff of `process_batch` (standardizer.py lines
190-206): keep every original attribute failing the coverage test.  (The
`sent_attr_names` set built at line 186 is computed but never read.) -/
def compute_unstandardized (original_attrs : List ProductAttribute)
    (standardized_attrs : List StandardizedAttribute) : List ProductAttribute :=
  original_attrs.filter
    (fun orig => ¬ is_attr_standardized standardized_attrs (pyLower orig.attr_name))

/-- The contribution of one partition to `all_results`, as a function of the
cache state it is processed from (for the `"UNMAPPED"` partition, the direct
per-product empty assignments). -/
def group_contrib (decode : String → Option Json) (oracle : Oracle) (now : Nat)
    (standards : OkpdStandards) (st : CacheState)
    (entry : String × List ProductForStandardization) : ResultMap :=
  if entry.1 = "UNMAPPED" then entry.2.map (fun p => (Json.str p.product_id, []))
  else (process_group decode oracle now standards st entry.1 entry.2).1

theorem refresh_group_caches_eq (oracle : Oracle) (now : Nat) (g : String) (st : CacheState) :
    (refresh_cache_if_needed oracle now g st).1.group_caches = st.group_caches := by
  unfold refresh_cache_if_needed
  dsimp only
  repeat' split <;> try rfl

theorem refresh_ts_other (oracle : Oracle) (now : Nat) (g h : String) (st : CacheState)
    (hne : h ≠ g) : dictGet (refresh_cache_if_needed oracle now g st).1.last_cache_refresh h =
      dictGet st.last_cache_refresh h := by
  unfold refresh_cache_if_needed
  dsimp only
  split
  · split
    · split
      · rfl
      · split
        · exact dictGet_insert_ne _ _ _ _ hne
        · rfl
    · rfl
  · rfl

theorem refresh_calls_group (oracle : Oracle) (now : Nat) (g : String) (st : CacheState) :
    ∀ c ∈ (refresh_cache_if_needed oracle now g st).2, c.group = g := by
  unfold refresh_cache_if_needed
  dsimp only
  intro c hc
  split at hc
  · split at hc
    · split at hc
      · simp at hc
      · split at hc <;> (simp at hc; subst hc; rfl)
    · simp at hc
  · simp at hc

theorem refresh_depends_only_on_entry (oracle : Oracle) (now : Nat) (g : String)
    (st st' : CacheState)
    (hc : dictGet st.group_caches g = dictGet st'.group_caches g)
    (ht : dictGet st.last_cache_refresh g = dictGet st'.last_cache_refresh g) :
    (refresh_cache_if_needed oracle now g st).2 = (refresh_cache_if_needed oracle now g st').2 := by
  unfold refresh_cache_if_needed
  rw [hc, ht]
  dsimp only
  split
  · split
    · split
      · rfl
      · split <;> rfl
    · rfl
  · rfl

theorem ensure_cache_none_iff (standards : OkpdStandards) (st : CacheState) (g : String) :
    ensure_cache standards st g = none ↔ cache_available standards st g = false := by
  unfold ensure_cache cache_available
  by_cases h1 : (dictGet st.group_caches g).isSome
  · simp [h1]
  · simp only [h1, if_false, Bool.false_or]
    match hp : prepare_cached_content standards g with
    | none => simp
    | some c =>
      by_cases he : c.data.isEmpty <;> simp [he]

theorem ensure_cache_caches_of_some (standards : OkpdStandards) (st st1 : CacheState)
    (g : String) (h : ensure_cache standards st g = some st1) :
    dictGet st1.group_caches g = some (effective_cached_content standards st g) ∧
      st1.last_cache_refresh = st.last_cache_refresh ∧
      (∀ h', h' ≠ g → dictGet st1.group_caches h' = dictGet st.group_caches h') ∧
      (∀ k c, dictGet st.group_caches k = some c → dictGet st1.group_caches k = some c) := by
  unfold ensure_cache at h
  by_cases h1 : (dictGet st.group_caches g).isSome
  · rw [if_pos h1, Option.some_inj] at h
    subst h
    rcases Option.isSome_iff_exists.mp h1 with ⟨c, hc⟩
    exact ⟨by simp [effective_cached_content, hc], rfl, fun _ _ => rfl, fun _ _ hk => hk⟩
  · rw [if_neg h1] at h
    match hp : prepare_cached_content standards g with
    | none => rw [hp] at h; cases h
    | some c =>
      rw [hp] at h
      dsimp only at h
      by_cases he : c.data.isEmpty
      · rw [if_pos he] at h; cases h
      · rw [if_neg he, Option.some_inj] at h
        subst h
        have hnone : dictGet st.group_caches g = none := Option.not_isSome_iff_eq_none.mp h1
        refine ⟨?_, rfl, ?_, ?_⟩
        · simp [dictGet_insert_self, effective_cached_content, hnone, hp]
        · intro h' hne
          exact dictGet_insert_ne _ _ _ _ hne
        · intro k c' hk
          have : k ≠ g := fun e => by rw [e, hnone] at hk; cases hk
          rw [dictGet_insert_ne _ _ _ _ this]
          exact hk

theorem ensure_cache_depends_only_on_entry (standards : OkpdStandards) (st st' : CacheState)
    (g : String) (hc : dictGet st.group_caches g = dictGet st'.group_caches g) :
    (ensure_cache standards st g).isSome = (ensure_cache standards st' g).isSome := by
  unfold ensure_cache
  rw [hc]
  by_cases h1 : (dictGet st'.group_caches g).isSome
  · simp [h1]
  · simp only [h1, if_false]
    match hp : prepare_cached_content standards g with
    | none => rfl
    | some c => by_cases he : c.data.isEmpty <;> simp [he]

theorem dictGet_insert_cases {κ α : Type} [DecidableEq κ] (m : List (κ × α)) (k k' : κ)
    (v w : α) (h : dictGet (dictInsert m k v) k' = some w) :
    (k' = k ∧ w = v) ∨ dictGet m k' = some w := by
  by_cases hk : k' = k
  · subst hk
    rw [dictGet_insert_self] at h
    exact Or.inl ⟨rfl, (Option.some_inj.mp h).symm⟩
  · rw [dictGet_insert_ne _ _ _ _ hk] at h
    exact Or.inr h

theorem dictGet_isSome_iff_mem_keys {κ α : Type} [DecidableEq κ] (m : List (κ × α)) (k : κ) :
    (dictGet m k).isSome ↔ k ∈ dictKeys m := by
  induction m with
  | nil => simp [dictGet, dictKeys]
  | cons kv rest ih =>
    obtain ⟨k₀, v₀⟩ := kv
    by_cases h : k₀ = k
    · subst h; simp [dictGet, dictKeys]
    · simp only [dictGet, if_neg h, dictKeys, List.map_cons, List.mem_cons]
      constructor
      · intro hm
        exact Or.inr (by simpa [dictKeys] using ih.mp hm)
      · intro hm
        rcases hm with hm | hm
        · exact absurd hm.symm h
        · exact ih.mpr (by simpa [dictKeys] using hm)

theorem dictGet_update_of_mem {κ α : Type} [DecidableEq κ] (m m2 : List (κ × α)) (k : κ)
    (hmem : (dictGet m2 k).isSome) (hnd : (dictKeys m2).Nodup) :
    dictGet (dictUpdate m m2) k = dictGet m2 k := by
  induction m2 generalizing m with
  | nil => simp [dictGet] at hmem
  | cons kv rest ih =>
    obtain ⟨k₀, v₀⟩ := kv
    simp only [dictKeys, List.map_cons, List.nodup_cons] at hnd
    by_cases hk : k₀ = k
    · subst hk
      have hnot : k₀ ∉ dictKeys rest := by simpa [dictKeys] using hnd.1
      rw [dictUpdate_cons]
      dsimp only
      rw [dictGet_update_of_not_mem _ _ _ hnot, dictGet_insert_self]
      simp [dictGet]
    · rw [dictUpdate_cons]
      simp only [dictGet, if_neg hk] at hmem ⊢
      exact ih _ hmem (by simpa [dictKeys] using hnd.2)

theorem dictKeys_nodup_insert {κ α : Type} [DecidableEq κ] (m : List (κ × α)) (k : κ) (v : α)
    (h : (dictKeys m).Nodup) : (dictKeys (dictInsert m k v)).Nodup := by
  by_cases hk : k ∈ dictKeys m
  · rwa [dictKeys_insert_of_mem _ _ _ hk]
  · rw [dictKeys_insert_of_not_mem _ _ _ hk]
    simp [List.nodup_append, h, hk]

theorem parse_items_keys_nodup (items : List Json) (r : ResultMap)
    (h : (dictKeys r).Nodup) : (dictKeys (parse_items items r)).Nodup := by
  induction items generalizing r with
  | nil => simpa [parse_items] using h
  | cons item rest ih =>
    unfold parse_items
    match item with
    | .null | .bool _ | .num _ | .str _ | .arr _ => exact h
    | .obj kvs =>
      dsimp only
      by_cases hp : (Json.truthy ((kvs.get "product_id").getD .null)) = false
      · simpa [hp] using ih _ h
      · simp only [hp, if_false]
        match (kvs.get "standardized_attributes").getD (.arr .nil) with
        | .arr attrs => exact ih _ (dictKeys_nodup_insert _ _ _ h)
        | .str _ => exact ih _ (dictKeys_nodup_insert _ _ _ h)
        | .obj _ => exact ih _ (dictKeys_nodup_insert _ _ _ h)
        | .null | .bool _ | .num _ => exact h

theorem parse_response_keys_nodup (decode : String → Option Json) (raw : String) :
    (dictKeys (parse_response decode raw)).Nodup := by
  unfold parse_response
  split
  · dsimp only
    split
    · exact parse_items_keys_nodup _ _ (by simp [dictKeys])
    · simp [dictKeys]
    · simp [dictKeys]
  · simp [dictKeys]

theorem ensure_fold_isSome_mono (ps : List ProductForStandardization) (r : ResultMap) (k : Json)
    (h : (dictGet r k).isSome) : (dictGet (ps.foldl ensure_step r) k).isSome := by
  induction ps generalizing r with
  | nil => simpa using h
  | cons p rest ih =>
    simp only [List.foldl_cons]
    apply ih
    unfold ensure_step
    split
    · exact h
    · exact dictGet_isSome_of_insert _ _ _ _ h

theorem ensure_fold_mem (ps : List ProductForStandardization) (r : ResultMap)
    (p : ProductForStandardization) (hp : p ∈ ps) :
    (dictGet (ps.foldl ensure_step r) (Json.str p.product_id)).isSome := by
  induction ps generalizing r with
  | nil => simp at hp
  | cons q rest ih =>
    simp only [List.foldl_cons]
    rcases List.mem_cons.mp hp with rfl | hp2
    · apply ensure_fold_isSome_mono
      unfold ensure_step
      split
      · assumption
      · simp [dictGet_insert_self]
    · exact ih _ hp2

theorem ensure_fold_nil_invariant (ps : List ProductForStandardization) (r : ResultMap)
    (h : ∀ k v, dictGet r k = some v → v = []) :
    ∀ k v, dictGet (ps.foldl ensure_step r) k = some v → v = [] := by
  induction ps generalizing r with
  | nil => simpa using h
  | cons p rest ih =>
    simp only [List.foldl_cons]
    apply ih
    intro k v hv
    unfold ensure_step at hv
    split at hv
    · exact h _ _ hv
    · rcases dictGet_insert_cases _ _ _ _ _ hv with ⟨_, rfl⟩ | hold
      · rfl
      · exact h _ _ hold

theorem ensure_fold_keys_nodup (ps : List ProductForStandardization) (r : ResultMap)
    (h : (dictKeys r).Nodup) : (dictKeys (ps.foldl ensure_step r)).Nodup := by
  induction ps generalizing r with
  | nil => simpa using h
  | cons p rest ih =>
    simp only [List.foldl_cons]
    apply ih
    unfold ensure_step
    split
    · exact h
    · exact dictKeys_nodup_insert _ _ _ h

theorem map_nil_get (ps : List ProductForStandardization) (p : ProductForStandardization)
    (hp : p ∈ ps) :
    dictGet (ps.map (fun q => (Json.str q.product_id, ([] : List StandardizedAttribute))))
      (Json.str p.product_id) = some [] := by
  induction ps with
  | nil => simp at hp
  | cons q rest ih =>
    by_cases h : Json.str q.product_id = Json.str p.product_id
    · simp [dictGet, h]
    · rcases List.mem_cons.mp hp with rfl | hp2
      · exact absurd rfl h
      · simp only [List.map_cons, dictGet, if_neg h]
        exact ih hp2

theorem process_group_calls_group (decode : String → Option Json) (oracle : Oracle) (now : Nat)
    (standards : OkpdStandards) (st : CacheState) (g : String)
    (ps : List ProductForStandardization) :
    ∀ c ∈ (process_group decode oracle now standards st g ps).2.2, c.group = g := by
  unfold process_group
  split
  · intro c hc; simp at hc
  · dsimp only
    split <;> intro c hc <;> rw [List.mem_append] at hc <;> rcases hc with hc | hc
    · exact refresh_calls_group _ _ _ _ c hc
    · simp at hc; subst hc; rfl
    · exact refresh_calls_group _ _ _ _ c hc
    · simp at hc; subst hc; rfl

theorem process_group_calls_available (decode : String → Option Json) (oracle : Oracle)
    (now : Nat) (standards : OkpdStandards) (st : CacheState) (g : String)
    (ps : List ProductForStandardization) (c : OracleCall)
    (hc : c ∈ (process_group decode oracle now standards st g ps).2.2) :
    cache_available standards st g = true := by
  cases hav : cache_available standards st g
  · exfalso
    have hE := (ensure_cache_none_iff standards st g).mpr hav
    unfold process_group at hc
    rw [hE] at hc
    simp at hc
  · rfl

theorem process_group_caches_preserved (decode : String → Option Json) (oracle : Oracle)
    (now : Nat) (standards : OkpdStandards) (st : CacheState) (g : String)
    (ps : List ProductForStandardization) :
    ∀ k c, dictGet st.group_caches k = some c →
      dictGet (process_group decode oracle now standards st g ps).2.1.group_caches k = some c := by
  intro k c hk
  unfold process_group
  split
  · exact hk
  case h_2 st1 hE =>
    have H := ensure_cache_caches_of_some _ _ _ _ hE
    have h1 : dictGet st1.group_caches k = some c := H.2.2.2 k c hk
    dsimp only
    split
    · dsimp only; rw [refresh_group_caches_eq]; exact h1
    · dsimp only; rw [refresh_group_caches_eq]; exact h1

theorem process_group_state_other (decode : String → Option Json) (oracle : Oracle)
    (now : Nat) (standards : OkpdStandards) (st : CacheState) (g : String)
    (ps : List ProductForStandardization) (h : String) (hne : h ≠ g) :
    dictGet (process_group decode oracle now standards st g ps).2.1.group_caches h =
        dictGet st.group_caches h ∧
      dictGet (process_group decode oracle now standards st g ps).2.1.last_cache_refresh h =
        dictGet st.last_cache_refresh h := by
  unfold process_group
  split
  · exact ⟨rfl, rfl⟩
  case h_2 st1 hE =>
    have H := ensure_cache_caches_of_some _ _ _ _ hE
    dsimp only
    constructor
    · split <;> dsimp only <;> rw [refresh_group_caches_eq] <;> exact H.2.2.1 h hne
    · split <;> dsimp only <;> rw [refresh_ts_other _ _ _ _ _ hne, H.2.1]

theorem process_group_cached_content (oracle : Oracle) (now : Nat)
    (standards : OkpdStandards) (st st1 : CacheState) (g : String)
    (hE : ensure_cache standards st g = some st1) :
    dictGet (refresh_cache_if_needed oracle now g st1).1.group_caches g =
      some (effective_cached_content standards st g) := by
  rw [refresh_group_caches_eq]
  exact (ensure_cache_caches_of_some _ _ _ _ hE).1

theorem process_group_results_eq_of_entry_eq (decode : String → Option Json) (oracle : Oracle)
    (now : Nat) (standards : OkpdStandards) (st st' : CacheState) (g : String)
    (ps : List ProductForStandardization)
    (hc : dictGet st.group_caches g = dictGet st'.group_caches g) :
    (process_group decode oracle now standards st g ps).1 =
      (process_group decode oracle now standards st' g ps).1 := by
  have hiso := ensure_cache_depends_only_on_entry standards st st' g hc
  have heff : effective_cached_content standards st g = effective_cached_content standards st' g := by
    unfold effective_cached_content
    rw [hc]
  cases hE : ensure_cache standards st g with
  | none =>
    cases hE' : ensure_cache standards st' g with
    | none => unfold process_group; rw [hE, hE']
    | some st1' => rw [hE, hE'] at hiso; simp at hiso
  | some st1 =>
    cases hE' : ensure_cache standards st' g with
    | none => rw [hE, hE'] at hiso; simp at hiso
    | some st1' =>
      unfold process_group
      rw [hE, hE']
      dsimp only
      rw [process_group_cached_content oracle now standards st st1 g hE,
        process_group_cached_content oracle now standards st' st1' g hE', ← heff]
      dsimp only [Option.getD]
      split <;> rfl

theorem process_group_results_error (decode : String → Option Json) (oracle : Oracle)
    (now : Nat) (standards : OkpdStandards) (st : CacheState) (g : String)
    (ps : List ProductForStandardization) (e : String)
    (hav : cache_available standards st g = true)
    (herr : oracle (dynamic_content_for ps) (effective_cached_content standards st g) 4000 =
      Except.error e) :
    (process_group decode oracle now standards st g ps).1 =
      ps.map (fun p => (Json.str p.product_id, [])) := by
  obtain ⟨st1, hE⟩ : ∃ st1, ensure_cache standards st g = some st1 := by
    cases hE : ensure_cache standards st g
    · rw [ensure_cache_none_iff] at hE
      rw [hE] at hav
      cases hav
    · exact ⟨_, rfl⟩
  unfold process_group
  rw [hE]
  dsimp only
  rw [process_group_cached_content oracle now standards st st1 g hE]
  dsimp only [Option.getD]
  rw [herr]

theorem process_group_get_nil (decode : String → Option Json) (oracle : Oracle)
    (now : Nat) (standards : OkpdStandards) (st : CacheState) (g : String)
    (ps : List ProductForStandardization)
    (hav : cache_available standards st g = true)
    (hfail : (∃ e, oracle (dynamic_content_for ps)
        (effective_cached_content standards st g) 4000 = Except.error e) ∨
      (∃ raw, oracle (dynamic_content_for ps)
          (effective_cached_content standards st g) 4000 = Except.ok raw ∧
        parse_response decode raw = []))
    (p : ProductForStandardization) (hp : p ∈ ps) :
    dictGet (process_group decode oracle now standards st g ps).1 (Json.str p.product_id) =
      some [] := by
  rcases hfail with ⟨e, herr⟩ | ⟨raw, hok, hparse⟩
  · rw [process_group_results_error decode oracle now standards st g ps e hav herr]
    exact map_nil_get ps p hp
  · obtain ⟨st1, hE⟩ : ∃ st1, ensure_cache standards st g = some st1 := by
      cases hE : ensure_cache standards st g
      · rw [ensure_cache_none_iff] at hE
        rw [hE] at hav
        cases hav
      · exact ⟨_, rfl⟩
    unfold process_group
    rw [hE]
    dsimp only
    rw [process_group_cached_content oracle now standards st st1 g hE]
    dsimp only [Option.getD]
    rw [hok]
    dsimp only
    rw [hparse]
    have hsome := ensure_fold_mem ps [] p hp
    rcases Option.isSome_iff_exists.mp hsome with ⟨v, hv⟩
    have hnil := ensure_fold_nil_invariant ps [] (by intro k v h; cases h) _ _ hv
    rw [hv, hnil]

theorem process_group_mem_own (decode : String → Option Json) (oracle : Oracle)
    (now : Nat) (standards : OkpdStandards) (st : CacheState) (g : String)
    (ps : List ProductForStandardization) (p : ProductForStandardization) (hp : p ∈ ps) :
    (dictGet (process_group decode oracle now standards st g ps).1
      (Json.str p.product_id)).isSome := by
  unfold process_group
  split
  · rw [map_nil_get ps p hp]; rfl
  · dsimp only
    split
    · dsimp only; rw [map_nil_get ps p hp]; rfl
    · dsimp only; exact ensure_fold_mem _ _ _ hp

theorem process_group_keys_nodup (decode : String → Option Json) (oracle : Oracle)
    (now : Nat) (standards : OkpdStandards) (st : CacheState) (g : String)
    (ps : List ProductForStandardization)
    (hnd : (ps.map (fun p => p.product_id)).Nodup) :
    (dictKeys (process_group decode oracle now standards st g ps).1).Nodup := by
  have hmap : (dictKeys (ps.map
      (fun p => (Json.str p.product_id, ([] : List StandardizedAttribute))))).Nodup := by
    simp only [dictKeys, List.map_map]
    have : ((fun x => x.1) ∘ fun p : ProductForStandardization =>
        (Json.str p.product_id, ([] : List StandardizedAttribute))) =
        (Json.str ∘ fun p => p.product_id) := rfl
    rw [this, ← List.map_map]
    exact hnd.map (fun a b h => Json.str.inj h)
  unfold process_group
  split
  · exact hmap
  · dsimp only
    split
    · exact hmap
    · exact ensure_fold_keys_nodup _ _ (parse_response_keys_nodup decode _)

theorem appendToGroup_keys_of_mem (acc : List (String × List ProductForStandardization))
    (g : String) (p : ProductForStandardization) (h : g ∈ dictKeys acc) :
    dictKeys (appendToGroup acc g p) = dictKeys acc := by
  induction acc with
  | nil => simp [dictKeys] at h
  | cons e rest ih =>
    obtain ⟨h0, qs⟩ := e
    by_cases hg : h0 = g
    · simp [appendToGroup, hg, dictKeys]
    · simp only [dictKeys, List.map_cons, List.mem_cons] at h
      rcases h with h | h
      · exact absurd h.symm hg
      · have ih' := ih (by simpa [dictKeys] using h)
        simp only [dictKeys, List.map_cons] at ih' ⊢
        simp [appendToGroup, hg, ih']

theorem appendToGroup_keys_of_not_mem (acc : List (String × List ProductForStandardization))
    (g : String) (p : ProductForStandardization) (h : g ∉ dictKeys acc) :
    dictKeys (appendToGroup acc g p) = dictKeys acc ++ [g] := by
  induction acc with
  | nil => simp [appendToGroup, dictKeys]
  | cons e rest ih =>
    obtain ⟨h0, qs⟩ := e
    simp only [dictKeys, List.map_cons, List.mem_cons] at h
    push_neg at h
    have ih' := ih (by simpa [dictKeys] using h.2)
    simp only [dictKeys, List.map_cons] at ih' ⊢
    simp [appendToGroup, Ne.symm h.1, ih']

theorem appendToGroup_keys_nodup (acc : List (String × List ProductForStandardization))
    (g : String) (p : ProductForStandardization) (h : (dictKeys acc).Nodup) :
    (dictKeys (appendToGroup acc g p)).Nodup := by
  by_cases hg : g ∈ dictKeys acc
  · rwa [appendToGroup_keys_of_mem _ _ _ hg]
  · rw [appendToGroup_keys_of_not_mem _ _ _ hg]
    simp [List.nodup_append, h, hg]

theorem products_by_group_keys_nodup (standards : OkpdStandards)
    (products : List ProductForStandardization) :
    (dictKeys (products_by_group standards products)).Nodup := by
  suffices H : ∀ (l : List ProductForStandardization)
      (acc : List (String × List ProductForStandardization)), (dictKeys acc).Nodup →
      (dictKeys (l.foldl (fun acc p => appendToGroup acc (group_key standards p) p) acc)).Nodup by
    exact H products [] (by simp [dictKeys])
  intro l
  induction l with
  | nil => intro acc h; simpa using h
  | cons p rest ih =>
    intro acc h
    exact ih _ (appendToGroup_keys_nodup _ _ _ h)


theorem appendToGroup_sound (P : String → ProductForStandardization → Prop)
    (acc : List (String × List ProductForStandardization)) (g : String)
    (p : ProductForStandardization) (hacc : ∀ e ∈ acc, ∀ q ∈ e.2, P e.1 q) (hp : P g p) :
    ∀ e ∈ appendToGroup acc g p, ∀ q ∈ e.2, P e.1 q := by
  induction acc with
  | nil =>
    intro e he q hq
    rcases List.mem_singleton.mp he with rfl
    rcases List.mem_singleton.mp hq with rfl
    exact hp
  | cons e0 rest ih =>
    obtain ⟨h0, qs⟩ := e0
    intro e he q hq
    by_cases hg : h0 = g
    · subst hg
      simp only [appendToGroup, if_pos rfl] at he
      rcases List.mem_cons.mp he with heq | hmem
      · subst heq
        rcases List.mem_append.mp hq with hq2 | hq2
        · exact hacc (h0, qs) (List.mem_cons_self _ _) q hq2
        · rcases List.mem_singleton.mp hq2 with rfl
          exact hp
      · exact hacc e (List.mem_cons_of_mem _ hmem) q hq
    · simp only [appendToGroup, if_neg hg] at he
      rcases List.mem_cons.mp he with heq | hmem
      · subst heq
        exact hacc (h0, qs) (List.mem_cons_self _ _) q hq
      · exact ih (fun e' he' q' hq' => hacc e' (List.mem_cons_of_mem _ he') q' hq') e hmem q hq

theorem products_by_group_sound (standards : OkpdStandards)
    (products : List ProductForStandardization) :
    ∀ e ∈ products_by_group standards products, ∀ q ∈ e.2,
      group_key standards q = e.1 ∧ q ∈ products := by
  suffices H : ∀ (l : List ProductForStandardization)
      (acc : List (String × List ProductForStandardization)),
      (∀ p ∈ l, p ∈ products) →
      (∀ e ∈ acc, ∀ q ∈ e.2, group_key standards q = e.1 ∧ q ∈ products) →
      ∀ e ∈ l.foldl (fun acc p => appendToGroup acc (group_key standards p) p) acc, ∀ q ∈ e.2,
        group_key standards q = e.1 ∧ q ∈ products by
    exact H products [] (fun p hp => hp) (by simp)
  intro l
  induction l with
  | nil => intro acc _ hacc; simpa using hacc
  | cons p rest ih =>
    intro acc hl hacc
    exact ih _ (fun q hq => hl q (List.mem_cons_of_mem _ hq))
      (appendToGroup_sound (fun gk q => group_key standards q = gk ∧ q ∈ products)
        acc _ p hacc ⟨rfl, hl p (List.mem_cons_self _ _)⟩)

theorem appendToGroup_mem_new (acc : List (String × List ProductForStandardization))
    (g : String) (p : ProductForStandardization) :
    ∃ qs, (g, qs) ∈ appendToGroup acc g p ∧ p ∈ qs := by
  induction acc with
  | nil => exact ⟨[p], by simp [appendToGroup]⟩
  | cons e0 rest ih =>
    obtain ⟨h0, qs0⟩ := e0
    by_cases hg : h0 = g
    · subst hg
      exact ⟨qs0 ++ [p], by simp [appendToGroup]⟩
    · rcases ih with ⟨qs, hmem, hp⟩
      exact ⟨qs, by simp [appendToGroup, hg, hmem], hp⟩

theorem appendToGroup_mem_mono (acc : List (String × List ProductForStandardization))
    (g g0 : String) (p q : ProductForStandardization) (qs : List ProductForStandardization)
    (hmem : (g0, qs) ∈ acc) (hq : q ∈ qs) :
    ∃ qs', (g0, qs') ∈ appendToGroup acc g p ∧ q ∈ qs' := by
  induction acc with
  | nil => simp at hmem
  | cons e0 rest ih =>
    obtain ⟨h0, qs0⟩ := e0
    by_cases hg : h0 = g
    · subst hg
      rcases List.mem_cons.mp hmem with heq | hmem2
      · injection heq with e1 e2
        subst e1; subst e2
        exact ⟨qs ++ [p], by simp [appendToGroup], List.mem_append_left _ hq⟩
      · exact ⟨qs, by simp [appendToGroup, hmem2], hq⟩
    · rcases List.mem_cons.mp hmem with heq | hmem2
      · injection heq with e1 e2
        subst e1; subst e2
        exact ⟨qs, by simp [appendToGroup, hg], hq⟩
      · rcases ih hmem2 with ⟨qs', hmem', hq'⟩
        exact ⟨qs', by simp [appendToGroup, hg, hmem'], hq'⟩

theorem products_by_group_covers (standards : OkpdStandards)
    (products : List ProductForStandardization) :
    ∀ p ∈ products, ∃ qs, (group_key standards p, qs) ∈ products_by_group standards products ∧
      p ∈ qs := by
  suffices H : ∀ (l : List ProductForStandardization)
      (acc : List (String × List ProductForStandardization)) (p : ProductForStandardization),
      (p ∈ l ∨ ∃ qs, (group_key standards p, qs) ∈ acc ∧ p ∈ qs) →
      ∃ qs, (group_key standards p, qs) ∈
        l.foldl (fun acc p => appendToGroup acc (group_key standards p) p) acc ∧ p ∈ qs by
    intro p hp
    exact H products [] p (Or.inl hp)
  intro l
  induction l with
  | nil =>
    intro acc p hp
    rcases hp with hp | hp
    · simp at hp
    · simpa using hp
  | cons r rest ih =>
    intro acc p hp
    simp only [List.foldl_cons]
    rcases hp with hp | ⟨qs, hmem, hq⟩
    · rcases List.mem_cons.mp hp with rfl | hp2
      · exact ih _ p (Or.inr (appendToGroup_mem_new acc _ p))
      · exact ih _ p (Or.inl hp2)
    · exact ih _ p (Or.inr (appendToGroup_mem_mono acc _ _ r p qs hmem hq))

/-- Concatenation of all partition lists, in partition order. -/
def partsFlatten : List (String × List ProductForStandardization) →
    List ProductForStandardization
  | [] => []
  | e :: rest => e.2 ++ partsFlatten rest

theorem appendToGroup_flatten_perm (acc : List (String × List ProductForStandardization))
    (g : String) (p : ProductForStandardization) :
    (partsFlatten (appendToGroup acc g p)).Perm (partsFlatten acc ++ [p]) := by
  induction acc with
  | nil => simp [appendToGroup, partsFlatten]
  | cons e0 rest ih =>
    obtain ⟨h0, qs0⟩ := e0
    by_cases hg : h0 = g
    · subst hg
      simp only [appendToGroup, if_pos rfl, partsFlatten]
      have h1 : (qs0 ++ [p]) ++ partsFlatten rest = qs0 ++ ([p] ++ partsFlatten rest) := by
        rw [List.append_assoc]
      have h2 : (qs0 ++ partsFlatten rest) ++ [p] = qs0 ++ (partsFlatten rest ++ [p]) := by
        rw [List.append_assoc]
      rw [h1, h2]
      exact List.Perm.append_left qs0 List.perm_append_comm
    · simp only [appendToGroup, if_neg hg, partsFlatten]
      have h2 : (qs0 ++ partsFlatten rest) ++ [p] = qs0 ++ (partsFlatten rest ++ [p]) := by
        rw [List.append_assoc]
      rw [h2]
      exact List.Perm.append_left qs0 ih

theorem products_by_group_flatten_perm (standards : OkpdStandards)
    (products : List ProductForStandardization) :
    (partsFlatten (products_by_group standards products)).Perm products := by
  suffices H : ∀ (l : List ProductForStandardization)
      (acc : List (String × List ProductForStandardization)),
      (partsFlatten (l.foldl (fun acc p => appendToGroup acc (group_key standards p) p)
        acc)).Perm (partsFlatten acc ++ l) by
    simpa [partsFlatten] using H products []
  intro l
  induction l with
  | nil => intro acc; simp
  | cons p rest ih =>
    intro acc
    simp only [List.foldl_cons]
    refine (ih (appendToGroup acc (group_key standards p) p)).trans ?_
    refine (List.Perm.append_right rest (appendToGroup_flatten_perm acc _ p)).trans ?_
    rw [List.append_assoc]
    exact List.Perm.refl _

theorem partsFlatten_split (parts : List (String × List ProductForStandardization))
    (g0 : String) (qs : List ProductForStandardization) (hmem : (g0, qs) ∈ parts) :
    ∃ l₁ l₂, partsFlatten parts = l₁ ++ qs ++ l₂ := by
  induction parts with
  | nil => simp at hmem
  | cons e rest ih =>
    rcases List.mem_cons.mp hmem with rfl | hmem2
    · exact ⟨[], partsFlatten rest, by simp [partsFlatten]⟩
    · rcases ih hmem2 with ⟨l₁, l₂, hsplit⟩
      exact ⟨e.2 ++ l₁, l₂, by simp [partsFlatten, hsplit, List.append_assoc]⟩

theorem dictGet_update_isSome_right {κ α : Type} [DecidableEq κ] (m m2 : List (κ × α)) (k : κ)
    (h : (dictGet m2 k).isSome) : (dictGet (dictUpdate m m2) k).isSome := by
  induction m2 generalizing m with
  | nil => simp [dictGet] at h
  | cons kv rest ih =>
    obtain ⟨k₀, v₀⟩ := kv
    rw [dictUpdate_cons]
    by_cases hk : k₀ = k
    · subst hk
      by_cases hr : (dictGet rest k₀).isSome
      · exact ih _ hr
      · apply dictGet_update_isSome_left
        simp [dictGet_insert_self]
    · simp only [dictGet, if_neg hk] at h
      exact ih _ h

/-- The contribution-only fold: merging each partition's contribution, computed
from the fixed state `st0`, by dict update. -/
def contrib_fold (decode : String → Option Json) (oracle : Oracle) (now : Nat)
    (standards : OkpdStandards) (st0 : CacheState)
    (parts : List (String × List ProductForStandardization)) (R : ResultMap) : ResultMap :=
  parts.foldl (fun R e => dictUpdate R (group_contrib decode oracle now standards st0 e)) R

theorem foldl_insert_nil_eq_update (R : ResultMap) (ps : List ProductForStandardization) :
    ps.foldl (fun r p => dictInsert r (Json.str p.product_id) []) R =
      dictUpdate R (ps.map (fun p => (Json.str p.product_id, []))) := by
  induction ps generalizing R with
  | nil => rfl
  | cons p rest ih =>
    simp only [List.foldl_cons, List.map_cons, dictUpdate_cons]
    exact ih _

theorem group_step_results (decode : String → Option Json) (oracle : Oracle) (now : Nat)
    (standards : OkpdStandards) (acc : BatchOutcome)
    (e : String × List ProductForStandardization) :
    (group_step decode oracle now standards acc e).all_results =
      dictUpdate acc.all_results (group_contrib decode oracle now standards acc.state e) := by
  by_cases h : e.1 = "UNMAPPED"
  · simp only [group_step, group_contrib, if_pos h]
    exact foldl_insert_nil_eq_update _ _
  · simp only [group_step, group_contrib, if_neg h]

theorem group_step_state (decode : String → Option Json) (oracle : Oracle) (now : Nat)
    (standards : OkpdStandards) (acc : BatchOutcome)
    (e : String × List ProductForStandardization) :
    (group_step decode oracle now standards acc e).state =
      if e.1 = "UNMAPPED" then acc.state
      else (process_group decode oracle now standards acc.state e.1 e.2).2.1 := by
  by_cases h : e.1 = "UNMAPPED" <;> simp [group_step, h]

theorem group_step_calls (decode : String → Option Json) (oracle : Oracle) (now : Nat)
    (standards : OkpdStandards) (acc : BatchOutcome)
    (e : String × List ProductForStandardization) :
    (group_step decode oracle now standards acc e).calls =
      acc.calls ++ (if e.1 = "UNMAPPED" then []
        else (process_group decode oracle now standards acc.state e.1 e.2).2.2) := by
  by_cases h : e.1 = "UNMAPPED" <;> simp [group_step, h]

theorem cache_available_dep (standards : OkpdStandards) (st st' : CacheState) (g : String)
    (hc : dictGet st.group_caches g = dictGet st'.group_caches g) :
    cache_available standards st g = cache_available standards st' g := by
  unfold cache_available
  rw [hc]

theorem group_contrib_eq_of_entry_eq (decode : String → Option Json) (oracle : Oracle)
    (now : Nat) (standards : OkpdStandards) (st st' : CacheState)
    (e : String × List ProductForStandardization)
    (hc : dictGet st.group_caches e.1 = dictGet st'.group_caches e.1) :
    group_contrib decode oracle now standards st e =
      group_contrib decode oracle now standards st' e := by
  unfold group_contrib
  by_cases h : e.1 = "UNMAPPED"
  · simp [h]
  · simp only [if_neg h]
    exact process_group_results_eq_of_entry_eq _ _ _ _ _ _ _ _ hc

theorem fold_characterization (decode : String → Option Json) (oracle : Oracle) (now : Nat)
    (standards : OkpdStandards) (st0 : CacheState) :
    ∀ (parts : List (String × List ProductForStandardization)) (acc : BatchOutcome),
      (dictKeys parts).Nodup →
      (∀ e ∈ parts, dictGet acc.state.group_caches e.1 = dictGet st0.group_caches e.1) →
      (parts.foldl (group_step decode oracle now standards) acc).all_results =
          contrib_fold decode oracle now standards st0 parts acc.all_results ∧
        (∀ c ∈ (parts.foldl (group_step decode oracle now standards) acc).calls,
          c ∈ acc.calls ∨ ∃ e ∈ parts, e.1 ≠ "UNMAPPED" ∧ c.group = e.1 ∧
            cache_available standards st0 e.1 = true) := by
  intro parts
  induction parts with
  | nil =>
    intro acc _ _
    exact ⟨rfl, fun c hc => Or.inl hc⟩
  | cons e rest ih =>
    intro acc hnd hag
    have hageq : dictGet acc.state.group_caches e.1 = dictGet st0.group_caches e.1 :=
      hag e (List.mem_cons_self _ _)
    have hndrest : (dictKeys rest).Nodup := by
      simp only [dictKeys, List.map_cons, List.nodup_cons] at hnd
      exact hnd.2
    have hnotmem : e.1 ∉ dictKeys rest := by
      simp only [dictKeys, List.map_cons, List.nodup_cons] at hnd
      simpa [dictKeys] using hnd.1
    have hag' : ∀ e' ∈ rest,
        dictGet (group_step decode oracle now standards acc e).state.group_caches e'.1 =
          dictGet st0.group_caches e'.1 := by
      intro e' he'
      have hne : e'.1 ≠ e.1 := by
        intro hcontr
        apply hnotmem
        rw [← hcontr]
        exact List.mem_map_of_mem (·.1) he'
      rw [group_step_state]
      by_cases hU : e.1 = "UNMAPPED"
      · rw [if_pos hU]
        exact hag e' (List.mem_cons_of_mem _ he')
      · rw [if_neg hU,
          (process_group_state_other decode oracle now standards acc.state e.1 e.2 e'.1 hne).1]
        exact hag e' (List.mem_cons_of_mem _ he')
    have IH := ih (group_step decode oracle now standards acc e) hndrest hag'
    constructor
    · rw [List.foldl_cons, IH.1, group_step_results]
      unfold contrib_fold
      rw [List.foldl_cons,
        group_contrib_eq_of_entry_eq decode oracle now standards acc.state st0 e hageq]
    · intro c hc
      rw [List.foldl_cons] at hc
      rcases IH.2 c hc with hcin | ⟨e', he', h1, h2, h3⟩
      · rw [group_step_calls] at hcin
        rcases List.mem_append.mp hcin with h | h
        · exact Or.inl h
        · by_cases hU : e.1 = "UNMAPPED"
          · rw [if_pos hU] at h
            simp at h
          · rw [if_neg hU] at h
            refine Or.inr ⟨e, List.mem_cons_self _ _, hU,
              process_group_calls_group decode oracle now standards acc.state e.1 e.2 c h, ?_⟩
            have hav := process_group_calls_available decode oracle now standards
              acc.state e.1 e.2 c h
            rwa [cache_available_dep standards acc.state st0 e.1 hageq] at hav
      · exact Or.inr ⟨e', List.mem_cons_of_mem _ he', h1, h2, h3⟩

theorem contrib_fold_get_not_mem (decode : String → Option Json) (oracle : Oracle) (now : Nat)
    (standards : OkpdStandards) (st0 : CacheState) :
    ∀ (parts : List (String × List ProductForStandardization)) (R : ResultMap) (k : Json),
      (∀ e ∈ parts, k ∉ dictKeys (group_contrib decode oracle now standards st0 e)) →
      dictGet (contrib_fold decode oracle now standards st0 parts R) k = dictGet R k := by
  intro parts
  induction parts with
  | nil => intro R k _; rfl
  | cons e rest ih =>
    intro R k h
    unfold contrib_fold
    rw [List.foldl_cons]
    have := ih (dictUpdate R (group_contrib decode oracle now standards st0 e)) k
      (fun e' he' => h e' (List.mem_cons_of_mem _ he'))
    unfold contrib_fold at this
    rw [this, dictGet_update_of_not_mem _ _ _ (h e (List.mem_cons_self _ _))]

theorem contrib_fold_get_of_split (decode : String → Option Json) (oracle : Oracle) (now : Nat)
    (standards : OkpdStandards) (st0 : CacheState)
    (l₁ l₂ : List (String × List ProductForStandardization))
    (e : String × List ProductForStandardization) (R : ResultMap) (k : Json)
    (hmem : (dictGet (group_contrib decode oracle now standards st0 e) k).isSome)
    (hndk : (dictKeys (group_contrib decode oracle now standards st0 e)).Nodup)
    (hafter : ∀ e' ∈ l₂, k ∉ dictKeys (group_contrib decode oracle now standards st0 e')) :
    dictGet (contrib_fold decode oracle now standards st0 (l₁ ++ e :: l₂) R) k =
      dictGet (group_contrib decode oracle now standards st0 e) k := by
  unfold contrib_fold
  rw [List.foldl_append, List.foldl_cons]
  have h2 := contrib_fold_get_not_mem decode oracle now standards st0 l₂
    (dictUpdate (contrib_fold decode oracle now standards st0 l₁ R)
      (group_contrib decode oracle now standards st0 e)) k hafter
  unfold contrib_fold at h2
  rw [h2, dictGet_update_of_mem _ _ _ hmem hndk]

theorem fold_caches_preserved (decode : String → Option Json) (oracle : Oracle) (now : Nat)
    (standards : OkpdStandards) :
    ∀ (parts : List (String × List ProductForStandardization)) (acc : BatchOutcome) (k : String)
      (c : String), dictGet acc.state.group_caches k = some c →
      dictGet (parts.foldl (group_step decode oracle now standards) acc).state.group_caches k =
        some c := by
  intro parts
  induction parts with
  | nil => intro acc k c h; exact h
  | cons e rest ih =>
    intro acc k c h
    rw [List.foldl_cons]
    apply ih
    rw [group_step_state]
    by_cases hU : e.1 = "UNMAPPED"
    · rwa [if_pos hU]
    · rw [if_neg hU]
      exact process_group_caches_preserved decode oracle now standards acc.state e.1 e.2 k c h

theorem fold_results_isSome_mono (decode : String → Option Json) (oracle : Oracle) (now : Nat)
    (standards : OkpdStandards) :
    ∀ (parts : List (String × List ProductForStandardization)) (acc : BatchOutcome) (k : Json),
      (dictGet acc.all_results k).isSome →
      (dictGet (parts.foldl (group_step decode oracle now standards) acc).all_results
        k).isSome := by
  intro parts
  induction parts with
  | nil => intro acc k h; exact h
  | cons e rest ih =>
    intro acc k h
    rw [List.foldl_cons]
    apply ih
    rw [group_step_results]
    exact dictGet_update_isSome_left _ _ _ h

theorem fold_establishes (decode : String → Option Json) (oracle : Oracle) (now : Nat)
    (standards : OkpdStandards) :
    ∀ (parts : List (String × List ProductForStandardization)) (acc : BatchOutcome)
      (g0 : String) (qs : List ProductForStandardization) (p : ProductForStandardization),
      (g0, qs) ∈ parts → p ∈ qs →
      (dictGet (parts.foldl (group_step decode oracle now standards) acc).all_results
        (Json.str p.product_id)).isSome := by
  intro parts
  induction parts with
  | nil => intro acc g0 qs p hmem _; simp at hmem
  | cons e rest ih =>
    intro acc g0 qs p hmem hp
    rw [List.foldl_cons]
    rcases List.mem_cons.mp hmem with rfl | hmem2
    · apply fold_results_isSome_mono
      rw [group_step_results]
      apply dictGet_update_isSome_right
      unfold group_contrib
      by_cases hU : (g0, qs).1 = "UNMAPPED"
      · rw [if_pos hU]
        rw [map_nil_get qs p hp]
        rfl
      · rw [if_neg hU]
        exact process_group_mem_own decode oracle now standards acc.state g0 qs p hp
    · exact ih _ g0 qs p hmem2 hp

theorem standardize_batch_covers (decode : String → Option Json) (oracle : Oracle) (now : Nat)
    (standards : OkpdStandards) (st : CacheState) (products : List ProductForStandardization) :
    ∀ p ∈ products,
      (dictGet (standardize_batch decode oracle now standards st products).all_results
        (Json.str p.product_id)).isSome := by
  intro p hp
  unfold standardize_batch
  have hne : products.isEmpty = false := by
    cases products
    · simp at hp
    · rfl
  rw [hne]
  simp only [Bool.false_eq_true, if_false]
  obtain ⟨qs, hqs, hpqs⟩ := products_by_group_covers standards products p hp
  exact fold_establishes decode oracle now standards _ _ _ qs p hqs hpqs

theorem string_mk_data (s : String) : String.mk s.data = s := by
  cases s
  rfl

theorem clean_nonempty (code : String) (h : pyLen (pyDeleteChar code '.') ≠ 0) :
    code.data.isEmpty = false := by
  cases hc : code.data with
  | nil =>
    exfalso
    apply h
    unfold pyLen pyDeleteChar
    rw [hc]
    rfl
  | cons a l => rfl

theorem get_okpd_group_len4 (standardsKeys : List String) (code : String)
    (h4 : 4 ≤ pyLen (pyDeleteChar code '.')) :
    get_okpd_group standardsKeys code =
      pyTake (pyDeleteChar code '.') 2 ++ "." ++ pyTake (pyDrop (pyDeleteChar code '.') 2) 2 := by
  have hne : code.data.isEmpty = false := clean_nonempty code (by omega)
  unfold get_okpd_group
  simp only [hne, Bool.false_eq_true, if_false, if_pos h4]

theorem get_okpd_group_len2 (standardsKeys : List String) (code : String)
    (h2 : pyLen (pyDeleteChar code '.') = 2) :
    get_okpd_group standardsKeys code =
      match (pySorted standardsKeys).find?
          (fun key => pyStartsWith key (pyDeleteChar code '.' ++ ".")) with
      | some key => key
      | none => "" := by
  have hne : code.data.isEmpty = false := clean_nonempty code (by omega)
  have hnot4 : ¬ 4 ≤ pyLen (pyDeleteChar code '.') := by omega
  have hTake : pyTake (pyDeleteChar code '.') 2 = pyDeleteChar code '.' := by
    rw [pyTake, List.take_of_length_le (by rw [← pyLen]; omega), string_mk_data]
  unfold get_okpd_group
  simp only [hne, Bool.false_eq_true, if_false, if_neg hnot4, if_pos h2, hTake]

theorem get_okpd_group_other (standardsKeys : List String) (code : String)
    (hlt : pyLen (pyDeleteChar code '.') < 4) (h2 : pyLen (pyDeleteChar code '.') ≠ 2) :
    get_okpd_group standardsKeys code = "" := by
  by_cases hne : code.data.isEmpty
  · unfold get_okpd_group
    simp [hne]
  · have hne' : code.data.isEmpty = false := by
      cases h : code.data.isEmpty
      · rfl
      · exact absurd h hne
    have hnot4 : ¬ 4 ≤ pyLen (pyDeleteChar code '.') := by omega
    unfold get_okpd_group
    simp only [hne', Bool.false_eq_true, if_false, if_neg hnot4, if_neg h2]

/-- C5: for every taxonomy code whose dot-stripped form has length at least 4,
`_get_okpd_group` returns the first two characters, a dot, then the next two
characters of the stripped code, and the result is independent of the catalog's
key set.  Independence of call order and of prior resolver calls holds because
the method is embedded as a pure function: the source reads only the code and
`self.okpd2_standards` (set once in `__init__` and never written), and mutates
no instance state. -/
theorem C5_resolver_ge4_pure (standardsKeys standardsKeys' : List String) (code : String)
    (h4 : 4 ≤ pyLen (pyDeleteChar code '.')) :
    get_okpd_group standardsKeys code =
        pyTake (pyDeleteChar code '.') 2 ++ "." ++ pyTake (pyDrop (pyDeleteChar code '.') 2) 2 ∧
      get_okpd_group standardsKeys code = get_okpd_group standardsKeys' code := by
  refine ⟨get_okpd_group_len4 _ _ h4, ?_⟩
  rw [get_okpd_group_len4 _ _ h4, get_okpd_group_len4 _ _ h4]

/-- Witness for C5 at the concrete code `"26.20.11"` with two different
catalogs. -/
theorem C5_resolver_ge4_pure_witness :
    4 ≤ pyLen (pyDeleteChar "26.20.11" '.') ∧
      get_okpd_group ["99.99"] "26.20.11" = "26.20" ∧
      get_okpd_group ["99.99"] "26.20.11" = get_okpd_group [] "26.20.11" := by
  refine ⟨by decide, ?_, (C5_resolver_ge4_pure ["99.99"] [] "26.20.11" (by decide)).2⟩
  rw [(C5_resolver_ge4_pure ["99.99"] [] "26.20.11" (by decide)).1]
  decide

/-- C6: for a code whose dot-stripped form has length exactly 2, the resolver
returns the first catalog key, in sorted (code-point lexicographic) order,
having `code + "."` as a prefix — equivalently: a matching key that is
lexicographically at most every matching key — and the empty string when no key
matches; for any other stripped length below 4 (0, 1 or 3) it returns the empty
string. -/
theorem C6_resolver_len2_fallback (standardsKeys : List String) (code : String)
    (hlt : pyLen (pyDeleteChar code '.') < 4) :
    (pyLen (pyDeleteChar code '.') = 2 →
      (get_okpd_group standardsKeys code ∈ standardsKeys ∧
        pyStartsWith (get_okpd_group standardsKeys code) (pyDeleteChar code '.' ++ ".") = true ∧
        (∀ k ∈ standardsKeys, pyStartsWith k (pyDeleteChar code '.' ++ ".") = true →
          pyStrLe (get_okpd_group standardsKeys code) k)) ∨
      (get_okpd_group standardsKeys code = "" ∧
        ∀ k ∈ standardsKeys, pyStartsWith k (pyDeleteChar code '.' ++ ".") = false)) ∧
    (pyLen (pyDeleteChar code '.') ≠ 2 → get_okpd_group standardsKeys code = "") := by
  constructor
  · intro h2
    rw [get_okpd_group_len2 standardsKeys code h2]
    cases hf : (pySorted standardsKeys).find?
        (fun key => pyStartsWith key (pyDeleteChar code '.' ++ ".")) with
    | some key =>
      left
      dsimp only
      refine ⟨(pySorted_perm standardsKeys).mem_iff.mp (List.mem_of_find?_eq_some hf),
        by simpa using List.find?_some hf, ?_⟩
      intro k hk hpk
      exact find_first_is_min _ (pySorted standardsKeys) (pySorted_pairwise standardsKeys)
        key hf k ((pySorted_perm standardsKeys).mem_iff.mpr hk) hpk
    | none =>
      right
      dsimp only
      refine ⟨rfl, ?_⟩
      intro k hk
      cases hpk : pyStartsWith k (pyDeleteChar code '.' ++ ".") with
      | false => rfl
      | true =>
        exact absurd hpk (List.find?_eq_none.mp hf k
          ((pySorted_perm standardsKeys).mem_iff.mpr hk))
  · exact get_okpd_group_other standardsKeys code hlt

/-- Witness for C6 at the concrete code `"26"` with catalog keys
`["26.30", "26.20", "11.22"]` (sorted order picks `"26.20"`), plus a direct
evaluation of the resolver at that input. -/
theorem C6_resolver_len2_fallback_witness :
    pyLen (pyDeleteChar "26" '.') < 4 ∧
      get_okpd_group ["26.30", "26.20", "11.22"] "26" = "26.20" ∧
      ((pyLen (pyDeleteChar "26" '.') = 2 →
        (get_okpd_group ["26.30", "26.20", "11.22"] "26" ∈ ["26.30", "26.20", "11.22"] ∧
          pyStartsWith (get_okpd_group ["26.30", "26.20", "11.22"] "26")
            (pyDeleteChar "26" '.' ++ ".") = true ∧
          (∀ k ∈ ["26.30", "26.20", "11.22"],
            pyStartsWith k (pyDeleteChar "26" '.' ++ ".") = true →
            pyStrLe (get_okpd_group ["26.30", "26.20", "11.22"] "26") k)) ∨
        (get_okpd_group ["26.30", "26.20", "11.22"] "26" = "" ∧
          ∀ k ∈ ["26.30", "26.20", "11.22"],
            pyStartsWith k (pyDeleteChar "26" '.' ++ ".") = false)) ∧
      (pyLen (pyDeleteChar "26" '.') ≠ 2 →
        get_okpd_group ["26.30", "26.20", "11.22"] "26" = "")) :=
  ⟨by decide, by decide, C6_resolver_len2_fallback ["26.30", "26.20", "11.22"] "26" (by decide)⟩

theorem len4_result_shape (s : String) (h : 4 ≤ s.data.length) :
    (pyTake s 2 ++ "." ++ pyTake (pyDrop s 2) 2).data.length = 5 ∧
    (pyTake s 2 ++ "." ++ pyTake (pyDrop s 2) 2).data[2]? = some '.' := by
  obtain ⟨l⟩ := s
  rcases l with _ | ⟨a, _ | ⟨b, _ | ⟨c, _ | ⟨d, tl⟩⟩⟩⟩
  · simp at h
  · simp at h
  · simp at h
  · simp at h
  · simp [pyTake, pyDrop, String.data_append]

/-- C9 counterexample: with catalog key set `["26.2000"]` and input `"26"` the
resolver returns the catalog key `"26.2000"` via the 2-digit fallback — a
nonempty string of length 7, so the output is neither empty nor of length
exactly 5, contradicting the claim's stated output shape. -/
theorem C9_counterexample :
    ¬ (get_okpd_group ["26.2000"] "26" = "" ∨
      (pyLen (get_okpd_group ["26.2000"] "26") = 5 ∧
        (get_okpd_group ["26.2000"] "26").data[2]? = some '.')) := by
  decide

/-- C9 amended: the resolver's output is the empty string, a catalog key
adopted by the 2-digit fallback, or — whenever the dot-stripped input has
length at least 4 — a string of length exactly 5 with `'.'` at index 2 formed
from the first four characters of the stripped input; no digit validation is
performed, so the non-digit input `"abcd"` yields `"ab.cd"` for every catalog. -/
theorem C9_resolver_output_shape (standardsKeys : List String) (code : String) :
    (get_okpd_group standardsKeys code = "" ∨
      get_okpd_group standardsKeys code ∈ standardsKeys ∨
      (4 ≤ pyLen (pyDeleteChar code '.') ∧
        pyLen (get_okpd_group standardsKeys code) = 5 ∧
        (get_okpd_group standardsKeys code).data[2]? = some '.' ∧
        get_okpd_group standardsKeys code =
          pyTake (pyDeleteChar code '.') 2 ++ "." ++
            pyTake (pyDrop (pyDeleteChar code '.') 2) 2)) ∧
    get_okpd_group standardsKeys "abcd" = "ab.cd" := by
  constructor
  · by_cases h4 : 4 ≤ pyLen (pyDeleteChar code '.')
    · right; right
      have heq := get_okpd_group_len4 standardsKeys code h4
      have hshape := len4_result_shape (pyDeleteChar code '.') h4
      exact ⟨h4, by rw [heq]; exact hshape.1, by rw [heq]; exact hshape.2, heq⟩
    · by_cases h2 : pyLen (pyDeleteChar code '.') = 2
      · rw [get_okpd_group_len2 standardsKeys code h2]
        cases hf : (pySorted standardsKeys).find?
            (fun key => pyStartsWith key (pyDeleteChar code '.' ++ ".")) with
        | some key =>
          right; left
          exact (pySorted_perm standardsKeys).mem_iff.mp (List.mem_of_find?_eq_some hf)
        | none => left; rfl
      · left
        exact get_okpd_group_other standardsKeys code (by omega) h2
  · rw [get_okpd_group_len4 standardsKeys "abcd" (by decide)]
    decide

/-- C4: an original attribute whose lower-cased name exactly equals the
lower-cased `standard_name` of some standardized attribute of the same product
passes the coverage test (its first disjunct), so the filter of
`process_batch` never places it in the unstandardized list. -/
theorem C4_exact_match_not_unstandardized (original_attrs : List ProductAttribute)
    (standardized_attrs : List StandardizedAttribute) (a : ProductAttribute)
    (hmatch : ∃ std ∈ standardized_attrs, pyLower a.attr_name = pyLower std.standard_name) :
    a ∉ compute_unstandardized original_attrs standardized_attrs := by
  intro hmem
  rcases hmatch with ⟨std, hstd, heq⟩
  unfold compute_unstandardized at hmem
  rcases List.mem_filter.mp hmem with ⟨_, hcond⟩
  rw [decide_eq_true_eq] at hcond
  apply hcond
  rw [is_attr_standardized, List.any_eq_true]
  refine ⟨std, hstd, ?_⟩
  rw [heq]
  simp

/-- Witness for C4: the original attribute `Цвет` is matched exactly by a
standardized attribute named `Цвет` and is absent from the unstandardized
list. -/
theorem C4_exact_match_not_unstandardized_witness :
    (∃ std ∈ [(⟨"цвет", "красный", "Цвет", "красный", "color"⟩ : StandardizedAttribute)],
      pyLower (⟨"Цвет", "красный"⟩ : ProductAttribute).attr_name = pyLower std.standard_name) ∧
    (⟨"Цвет", "красный"⟩ : ProductAttribute) ∉
      compute_unstandardized [⟨"Цвет", "красный"⟩, ⟨"Вес", "5"⟩]
        [⟨"цвет", "красный", "Цвет", "красный", "color"⟩] :=
  ⟨⟨⟨"цвет", "красный", "Цвет", "красный", "color"⟩, by decide, by decide⟩,
    C4_exact_match_not_unstandardized [⟨"Цвет", "красный"⟩, ⟨"Вес", "5"⟩]
      [⟨"цвет", "красный", "Цвет", "красный", "color"⟩] ⟨"Цвет", "красный"⟩
      ⟨⟨"цвет", "красный", "Цвет", "красный", "color"⟩, by decide, by decide⟩⟩

/-- C10: `standardize_batch` applied to an empty product list returns the empty
result dict at once, makes no oracle call, and leaves the cache state — both the
per-group cached texts and the per-group last-refresh timestamps — exactly as it
was. -/
theorem C10_empty_batch (decode : String → Option Json) (oracle : Oracle) (now : Nat)
    (standards : OkpdStandards) (st : CacheState) :
    standardize_batch decode oracle now standards st [] = ⟨[], st, []⟩ := rfl

/-- C8: once a rendered instruction text is stored under a group key in
`group_caches`, no later operation replaces or removes it: a `standardize_batch`
run preserves every existing entry verbatim (the write at line 307 happens only
under `okpd_group not in self.group_caches`), and `_refresh_cache_if_needed`
never writes `group_caches` at all. -/
theorem C8_cache_write_once (decode : String → Option Json) (oracle oracle2 : Oracle)
    (now now2 : Nat) (standards : OkpdStandards) (st : CacheState)
    (products : List ProductForStandardization) (g g2 : String) (c : String)
    (h : dictGet st.group_caches g = some c) :
    dictGet (standardize_batch decode oracle now standards st products).state.group_caches g =
        some c ∧
      (refresh_cache_if_needed oracle2 now2 g2 st).1.group_caches = st.group_caches := by
  refine ⟨?_, refresh_group_caches_eq oracle2 now2 g2 st⟩
  unfold standardize_batch
  cases products with
  | nil => exact h
  | cons p rest =>
    exact fold_caches_preserved decode oracle now standards
      (products_by_group standards (p :: rest)) ⟨[], st, []⟩ g c h

/-- Witness for C8: a state already caching text for `"26.20"` keeps that exact
text across a batch run (whose oracle fails) and across a stale refresh. -/
theorem C8_cache_write_once_witness :
    dictGet ({ group_caches := [("26.20", "cached text")], last_cache_refresh := [] } :
        CacheState).group_caches "26.20" = some "cached text" ∧
      (dictGet (standardize_batch (fun _ => none) (fun _ _ _ => Except.error "boom") 0 []
          ⟨[("26.20", "cached text")], []⟩
          [⟨"p1", "Товар", "262011", []⟩]).state.group_caches "26.20" = some "cached text" ∧
        (refresh_cache_if_needed (fun _ _ _ => Except.ok "y") 500 "26.20"
          ⟨[("26.20", "cached text")], []⟩).1.group_caches =
          ({ group_caches := [("26.20", "cached text")], last_cache_refresh := [] } :
            CacheState).group_caches) :=
  ⟨by decide,
    C8_cache_write_once (fun _ => none) (fun _ _ _ => Except.error "boom")
      (fun _ _ _ => Except.ok "y") 0 500 [] ⟨[("26.20", "cached text")], []⟩
      [⟨"p1", "Товар", "262011", []⟩] "26.20" "26.20" "cached text" (by decide)⟩

/-- Demo product resolving to group `"26.20"`. -/
def demoProduct1 : ProductForStandardization :=
  ⟨"p1", "Товар 1", "262011", [⟨"Цвет", "красный"⟩]⟩

/-- Demo product resolving to group `"27.11"`. -/
def demoProduct2 : ProductForStandardization :=
  ⟨"p2", "Товар 2", "271100", [⟨"Мощность", "100"⟩]⟩

/-- Demo catalog with an entry for group `"26.20"` only. -/
def demoStandards : OkpdStandards := [("26.20", Json.obj (.cons "Цвет" (.obj .nil) .nil))]

/-- Demo catalog with entries for groups `"26.20"` and `"27.11"`. -/
def demoStandards2 : OkpdStandards :=
  [("26.20", Json.obj .nil), ("27.11", Json.obj .nil)]

/-- An oracle response whose single element carries a `product_id` that was
never part of the batch. -/
def demoAlienRaw : String :=
  "[\x7b\"product_id\": \"alien\", \"standardized_attributes\": []\x7d]"

/-- The JSON value `json.loads` yields for `demoAlienRaw`. -/
def demoAlienJson : Json :=
  .arr (.cons (.obj (.cons "product_id" (.str "alien")
    (.cons "standardized_attributes" (.arr .nil) .nil))) .nil)

/-- `json.loads` modelled at the only string this scenario decodes. -/
def demoAlienDecode : String → Option Json :=
  fun s => if s = demoAlienRaw then some demoAlienJson else none

/-- An oracle answering refresh probes with a filler and the main call with
`demoAlienRaw`. -/
def demoAlienOracle : Oracle :=
  fun _ _ max_tokens => if max_tokens = 10 then Except.ok "ok" else Except.ok demoAlienRaw

/-- An oracle whose every call raises a transport error. -/
def demoFailOracle : Oracle := fun _ _ _ => Except.error "Connection error"

/-- C3 counterexample: a one-product batch whose oracle response names only the
foreign id `"alien"` produces a final outcome map with two entries — the echoed
foreign id and the batch product's filled-in empty entry — so the number of
claimed products does not equal the number of `productId` entries. -/
theorem C3_counterexample :
    (standardize_batch demoAlienDecode demoAlienOracle 0 demoStandards ⟨[], []⟩
        [demoProduct1]).all_results.length ≠ [demoProduct1].length := by
  decide

/-- C3 amended: every claimed product receives an entry (success or empty) in
the final outcome map — the claimed ids are a subset of the outcome keys, and
with distinct ids the outcome map has at least as many entries as claimed
products.  Exact equality can fail: a `product_id` present in the oracle's
response but absent from the batch creates an extra entry. -/
theorem C3_every_claimed_product_has_entry (decode : String → Option Json) (oracle : Oracle)
    (now : Nat) (standards : OkpdStandards) (st : CacheState)
    (products : List ProductForStandardization)
    (hnd : (products.map (fun p => p.product_id)).Nodup) :
    (∀ p ∈ products,
      (dictGet (standardize_batch decode oracle now standards st products).all_results
        (Json.str p.product_id)).isSome) ∧
    products.length ≤
      (standardize_batch decode oracle now standards st products).all_results.length := by
  refine ⟨standardize_batch_covers decode oracle now standards st products, ?_⟩
  have hKnd : (products.map (fun p => Json.str p.product_id)).Nodup := by
    have h2 := hnd.map (fun a b h => Json.str.inj h)
    rw [List.map_map] at h2
    exact h2
  have hsub : ∀ k ∈ products.map (fun p => Json.str p.product_id),
      k ∈ dictKeys (standardize_batch decode oracle now standards st products).all_results := by
    intro k hk
    rcases List.mem_map.mp hk with ⟨p, hp, rfl⟩
    exact (dictGet_isSome_iff_mem_keys _ _).mp
      (standardize_batch_covers decode oracle now standards st products p hp)
  calc products.length
      = (products.map (fun p => Json.str p.product_id)).length := (List.length_map _ _).symm
    _ = (products.map (fun p => Json.str p.product_id)).toFinset.card :=
        (List.toFinset_card_of_nodup hKnd).symm
    _ ≤ (dictKeys (standardize_batch decode oracle now standards st
          products).all_results).toFinset.card := by
        apply Finset.card_le_card
        intro x hx
        exact List.mem_toFinset.mpr (hsub x (List.mem_toFinset.mp hx))
    _ ≤ (dictKeys (standardize_batch decode oracle now standards st
          products).all_results).length := List.toFinset_card_le _
    _ = (standardize_batch decode oracle now standards st products).all_results.length := by
        simp [dictKeys]

/-- Witness for the amended C3 on the alien-id scenario. -/
theorem C3_every_claimed_product_has_entry_witness :
    (([demoProduct1].map (fun p => p.product_id)).Nodup) ∧
      ((∀ p ∈ [demoProduct1],
        (dictGet (standardize_batch demoAlienDecode demoAlienOracle 0 demoStandards ⟨[], []⟩
          [demoProduct1]).all_results (Json.str p.product_id)).isSome) ∧
      [demoProduct1].length ≤
        (standardize_batch demoAlienDecode demoAlienOracle 0 demoStandards ⟨[], []⟩
          [demoProduct1]).all_results.length) :=
  ⟨by decide, C3_every_claimed_product_has_entry demoAlienDecode demoAlienOracle 0 demoStandards
    ⟨[], []⟩ [demoProduct1] (by decide)⟩

theorem map_nil_keys_nodup (ps : List ProductForStandardization)
    (hnd : (ps.map (fun p => p.product_id)).Nodup) :
    (dictKeys (ps.map
      (fun p => (Json.str p.product_id, ([] : List StandardizedAttribute))))).Nodup := by
  simp only [dictKeys, List.map_map]
  have h2 := hnd.map (fun a b h => Json.str.inj h)
  rw [List.map_map] at h2
  exact h2

theorem partition_entry_ids_nodup (standards : OkpdStandards)
    (products : List ProductForStandardization)
    (hnd : (products.map (fun p => p.product_id)).Nodup) (g : String)
    (qs : List ProductForStandardization)
    (hmem : (g, qs) ∈ products_by_group standards products) :
    (qs.map (fun p => p.product_id)).Nodup := by
  rcases partsFlatten_split (products_by_group standards products) g qs hmem with ⟨l₁, l₂, hsplit⟩
  have hperm : ((partsFlatten (products_by_group standards products)).map
      (fun p => p.product_id)).Perm (products.map (fun p => p.product_id)) :=
    (products_by_group_flatten_perm standards products).map _
  have hnodup := hperm.nodup_iff.mpr hnd
  rw [hsplit] at hnodup
  simp only [List.map_append] at hnodup
  exact List.Nodup.sublist
    ((List.sublist_append_right (l₁.map (fun p => p.product_id)) _).trans
      (List.sublist_append_left _ (l₂.map (fun p => p.product_id)))) hnodup

theorem group_contrib_mem_own (decode : String → Option Json) (oracle : Oracle) (now : Nat)
    (standards : OkpdStandards) (st : CacheState)
    (e : String × List ProductForStandardization) (p : ProductForStandardization)
    (hp : p ∈ e.2) :
    (dictGet (group_contrib decode oracle now standards st e) (Json.str p.product_id)).isSome := by
  unfold group_contrib
  by_cases hU : e.1 = "UNMAPPED"
  · rw [if_pos hU, map_nil_get e.2 p hp]
    rfl
  · rw [if_neg hU]
    exact process_group_mem_own decode oracle now standards st e.1 e.2 p hp

theorem group_contrib_keys_nodup (decode : String → Option Json) (oracle : Oracle) (now : Nat)
    (standards : OkpdStandards) (st : CacheState)
    (e : String × List ProductForStandardization)
    (hnd : (e.2.map (fun p => p.product_id)).Nodup) :
    (dictKeys (group_contrib decode oracle now standards st e)).Nodup := by
  unfold group_contrib
  by_cases hU : e.1 = "UNMAPPED"
  · rw [if_pos hU]
    exact map_nil_keys_nodup e.2 hnd
  · rw [if_neg hU]
    exact process_group_keys_nodup decode oracle now standards st e.1 e.2 hnd

/-- The central independence lemma: with distinct product ids and an oracle
whose parsed responses only name ids of the partition they were requested for,
a product's entry in the final `all_results` map equals its entry in its own
partition's contribution, computed from the initial cache state — other
partitions' processing (in particular their failures) cannot touch it. -/
theorem standardize_batch_get_own (decode : String → Option Json) (oracle : Oracle) (now : Nat)
    (standards : OkpdStandards) (st : CacheState) (products : List ProductForStandardization)
    (hnd : (products.map (fun p => p.product_id)).Nodup)
    (hown : ∀ e ∈ products_by_group standards products,
      ∀ k ∈ dictKeys (group_contrib decode oracle now standards st e),
      ∃ q ∈ e.2, k = Json.str q.product_id)
    (qs : List ProductForStandardization) (p : ProductForStandardization)
    (hmem : (group_key standards p, qs) ∈ products_by_group standards products)
    (hpqs : p ∈ qs) :
    dictGet (standardize_batch decode oracle now standards st products).all_results
        (Json.str p.product_id) =
      dictGet (group_contrib decode oracle now standards st (group_key standards p, qs))
        (Json.str p.product_id) := by
  have hpprod : p ∈ products :=
    (products_by_group_sound standards products _ hmem p hpqs).2
  have hprodne : products.isEmpty = false := by
    cases products
    · simp at hpprod
    · rfl
  have hndk := products_by_group_keys_nodup standards products
  unfold standardize_batch
  rw [hprodne]
  simp only [Bool.false_eq_true, if_false]
  rw [(fold_characterization decode oracle now standards st
    (products_by_group standards products) ⟨[], st, []⟩ hndk (fun e he => rfl)).1]
  rcases List.append_of_mem hmem with ⟨l₁, l₂, hsplit⟩
  rw [hsplit]
  apply contrib_fold_get_of_split
  · exact group_contrib_mem_own decode oracle now standards st _ p hpqs
  · exact group_contrib_keys_nodup decode oracle now standards st _
      (partition_entry_ids_nodup standards products hnd _ qs hmem)
  · intro e' he' hkmem
    have he'p : e' ∈ products_by_group standards products := by
      rw [hsplit]
      exact List.mem_append_right _ (List.mem_cons_of_mem _ he')
    rcases hown e' he'p _ hkmem with ⟨q, hq, hkq⟩
    have hqsound := products_by_group_sound standards products e' he'p q hq
    have hpid : q.product_id = p.product_id := (Json.str.inj hkq.symm)
    have hqp : q = p := List.inj_on_of_nodup_map hnd hqsound.2 hpprod hpid
    have hgp : group_key standards p = e'.1 := by
      rw [← hqp]
      exact hqsound.1
    have hkeys : group_key standards p ∉ dictKeys l₂ := by
      rw [hsplit] at hndk
      simp only [dictKeys, List.map_append, List.map_cons] at hndk
      have hsub : (group_key standards p :: dictKeys l₂).Sublist
          (List.map (·.1) l₁ ++ group_key standards p :: List.map (·.1) l₂) :=
        List.sublist_append_right _ _
      have := List.Nodup.sublist hsub (by simpa [dictKeys] using hndk)
      exact (List.nodup_cons.mp this).1
    apply hkeys
    rw [hgp]
    exact List.mem_map_of_mem (·.1) he'

/-- C7: a product whose code resolves to the falsy group key (the `"UNMAPPED"`
partition), and a product whose resolved group has no entry in the loaded
standards, each receive the empty result list in the batch outcome, no oracle
call is made for their partition, and every product of the batch still receives
an entry (the embedding is total — no exception interrupts the remaining
partitions).  Hypotheses: distinct product ids; the cache state only holds
groups present in the standards (true of every reachable state, since entries
are only created from successful catalog lookups); and parsed oracle responses
only name ids of the partition they answer (`hown`), ruling out a foreign-id
overwrite of the product's entry. -/
theorem C7_unmapped_and_missing_catalog (decode : String → Option Json) (oracle : Oracle)
    (now : Nat) (standards : OkpdStandards) (st : CacheState)
    (products : List ProductForStandardization) (p : ProductForStandardization)
    (hp : p ∈ products)
    (hnd : (products.map (fun q => q.product_id)).Nodup)
    (hwf : ∀ k, (dictGet st.group_caches k).isSome → (dictGet standards k).isSome)
    (hkey : group_key standards p = "UNMAPPED" ∨
      dictGet standards (group_key standards p) = none)
    (hown : ∀ e ∈ products_by_group standards products,
      ∀ k ∈ dictKeys (group_contrib decode oracle now standards st e),
      ∃ q ∈ e.2, k = Json.str q.product_id) :
    dictGet (standardize_batch decode oracle now standards st products).all_results
        (Json.str p.product_id) = some [] ∧
      (∀ c ∈ (standardize_batch decode oracle now standards st products).calls,
        c.group ≠ group_key standards p) ∧
      (∀ q ∈ products,
        (dictGet (standardize_batch decode oracle now standards st products).all_results
          (Json.str q.product_id)).isSome) := by
  have hprodne : products.isEmpty = false := by
    cases products
    · simp at hp
    · rfl
  have hcav : dictGet standards (group_key standards p) = none →
      cache_available standards st (group_key standards p) = false := by
    intro hmiss
    unfold cache_available
    have h1 : (dictGet st.group_caches (group_key standards p)).isSome = false := by
      cases hx : (dictGet st.group_caches (group_key standards p)).isSome
      · rfl
      · have := hwf _ hx
        rw [hmiss] at this
        cases this
    rw [h1]
    simp only [Bool.false_or]
    unfold prepare_cached_content
    rw [hmiss]
  obtain ⟨qs, hmem, hpqs⟩ := products_by_group_covers standards products p hp
  refine ⟨?_, ?_, fun q hq => standardize_batch_covers decode oracle now standards st products q hq⟩
  · rw [standardize_batch_get_own decode oracle now standards st products hnd hown qs p hmem hpqs]
    unfold group_contrib
    rcases hkey with hU | hmiss
    · dsimp only
      rw [if_pos hU]
      exact map_nil_get qs p hpqs
    · by_cases hU : group_key standards p = "UNMAPPED"
      · dsimp only
        rw [if_pos hU]
        exact map_nil_get qs p hpqs
      · dsimp only
        rw [if_neg hU]
        have hE : ensure_cache standards st (group_key standards p) = none :=
          (ensure_cache_none_iff standards st _).mpr (hcav hmiss)
        unfold process_group
        rw [hE]
        exact map_nil_get qs p hpqs
  · intro c hc hceq
    have hcalls := (fold_characterization decode oracle now standards st
      (products_by_group standards products) ⟨[], st, []⟩
      (products_by_group_keys_nodup standards products) (fun e he => rfl)).2
    have hc' : c ∈ ((products_by_group standards products).foldl
        (group_step decode oracle now standards) ⟨[], st, []⟩).calls := by
      unfold standardize_batch at hc
      rw [hprodne] at hc
      simpa using hc
    rcases hcalls c hc' with h0 | ⟨e, he, hneU, hgr, hav⟩
    · simp at h0
    · rcases hkey with hU | hmiss
      · exact hneU (by rw [← hgr, hceq, hU])
      · have he1 : e.1 = group_key standards p := hgr.symm.trans hceq
        rw [he1, hcav hmiss] at hav
        cases hav

/-- Witness for C7: a batch holding an unmappable-code product (`okpd2_code`
`"1"`), a product whose group `"33.20"` is absent from the catalog, and a
product of the covered group `"26.20"` whose oracle call fails. -/
theorem C7_unmapped_and_missing_catalog_witness :
    ((⟨"p0", "Товар 0", "1", []⟩ : ProductForStandardization) ∈
      [(⟨"p0", "Товар 0", "1", []⟩ : ProductForStandardization),
        ⟨"p3", "Товар 3", "332011", []⟩, demoProduct1]) ∧
    ((([(⟨"p0", "Товар 0", "1", []⟩ : ProductForStandardization),
        ⟨"p3", "Товар 3", "332011", []⟩, demoProduct1]).map
          (fun q => q.product_id)).Nodup) ∧
    (group_key demoStandards (⟨"p0", "Товар 0", "1", []⟩ : ProductForStandardization) =
      "UNMAPPED") ∧
    dictGet (standardize_batch (fun _ => none) demoFailOracle 0 demoStandards ⟨[], []⟩
        [(⟨"p0", "Товар 0", "1", []⟩ : ProductForStandardization),
          ⟨"p3", "Товар 3", "332011", []⟩, demoProduct1]).all_results
        (Json.str "p0") = some [] ∧
    (∀ c ∈ (standardize_batch (fun _ => none) demoFailOracle 0 demoStandards ⟨[], []⟩
        [(⟨"p0", "Товар 0", "1", []⟩ : ProductForStandardization),
          ⟨"p3", "Товар 3", "332011", []⟩, demoProduct1]).calls,
      c.group ≠ group_key demoStandards (⟨"p0", "Товар 0", "1", []⟩ :
        ProductForStandardization)) := by
  have h := C7_unmapped_and_missing_catalog (fun _ => none) demoFailOracle 0 demoStandards
    ⟨[], []⟩
    [(⟨"p0", "Товар 0", "1", []⟩ : ProductForStandardization),
      ⟨"p3", "Товар 3", "332011", []⟩, demoProduct1]
    ⟨"p0", "Товар 0", "1", []⟩ (by decide) (by decide) (by intro k h; cases h)
    (Or.inl (by decide)) (by decide)
  exact ⟨by decide, by decide, by decide, h.1, h.2.1⟩

/-- A response for product `"p2"` alone, in the documented format. -/
def demoP2Raw : String :=
  "[\x7b\"product_id\": \"p2\", \"standardized_attributes\": []\x7d]"

/-- The JSON value `json.loads` yields for `demoP2Raw`. -/
def demoP2Json : Json :=
  .arr (.cons (.obj (.cons "product_id" (.str "p2")
    (.cons "standardized_attributes" (.arr .nil) .nil))) .nil)

/-- `json.loads` modelled at the only string this scenario decodes. -/
def demoDecodeB : String → Option Json := fun s => if s = demoP2Raw then some demoP2Json else none

/-- An oracle that fails partition `"26.20"`'s main call with a transport error
but answers partition `"27.11"`'s main call (recognised by its dynamic content)
with the well-formed `demoP2Raw`. -/
def demoOracleAB : Oracle := fun dyn _ max_tokens =>
  if max_tokens = 10 then Except.ok "ok"
  else if dyn = dynamic_content_for [demoProduct2] then Except.ok demoP2Raw
  else Except.error "Connection error"

set_option maxRecDepth 65536 in
/-- C1 counterexample: a two-partition cycle in which only partition
`"26.20"`'s oracle call raises a transport error while partition `"27.11"`'s
call succeeds with a well-formed response.  The cycle's persisted status
updates mark BOTH products — the failing partition's `"p1"` and the healthy
partition's `"p2"` — `"failed"`, with the `StandardizedProduct` validation
error as error text: the reconciliation loop's standardized branch raises at
standardizer.py line 211 (required `title` and `okpd_group` never passed)
before any `"standardized"` status can be appended, and the exception handler
at lines 281-296 marks every claimed product failed.  So the products of the
other partition are not unaffected, refuting the claim as stated. -/
theorem C1_counterexample :
    demoOracleAB (dynamic_content_for [demoProduct1])
        (effective_cached_content demoStandards2 ⟨[], []⟩ "26.20") 4000 =
      Except.error "Connection error" ∧
    demoOracleAB (dynamic_content_for [demoProduct2])
        (effective_cached_content demoStandards2 ⟨[], []⟩ "27.11") 4000 =
      Except.ok demoP2Raw ∧
    (process_batch_reconcile
        (standardize_batch demoDecodeB demoOracleAB 0 demoStandards2 ⟨[], []⟩
          [demoProduct1, demoProduct2]).all_results
        [demoProduct1.product_id, demoProduct2.product_id]).1 =
      [⟨"p1", "failed", some validation_error_text⟩,
        ⟨"p2", "failed", some validation_error_text⟩] := by
  refine ⟨rfl, rfl, by decide⟩

/-- C1 amended: when a partition's oracle call raises a transport error, or its
raw response parses to the empty map, then at the dispatcher level every
product of that partition is assigned the empty result list while every product
of every other partition keeps exactly the entry its own partition's processing
produced; but no per-partition distinction survives to the cycle's persisted
status updates: since every claimed product has an entry in the outcome map,
the reconciliation loop's first standardized-branch iteration raises the
`StandardizedProduct` validation error (required `title` and `okpd_group` are
never passed) before any status is appended, and the cycle's exception handler
marks every claimed product — of the failing partition and of every other
partition alike — `"failed"` with that validation error's text, then re-raises.
Hypotheses as in the independence lemma: distinct ids, responses naming only
their own partition's ids, and a cached text available for the failing
partition (so its oracle call happens). -/
theorem C1_failed_partition_cycle_marks_all_failed (decode : String → Option Json)
    (oracle : Oracle) (now : Nat) (standards : OkpdStandards) (st : CacheState)
    (products : List ProductForStandardization) (g : String)
    (qs : List ProductForStandardization)
    (hnd : (products.map (fun p => p.product_id)).Nodup)
    (hown : ∀ e ∈ products_by_group standards products,
      ∀ k ∈ dictKeys (group_contrib decode oracle now standards st e),
      ∃ q ∈ e.2, k = Json.str q.product_id)
    (hmem : (g, qs) ∈ products_by_group standards products)
    (hgU : g ≠ "UNMAPPED")
    (hav : cache_available standards st g = true)
    (hfail : (∃ err, oracle (dynamic_content_for qs)
        (effective_cached_content standards st g) 4000 = Except.error err) ∨
      (∃ raw, oracle (dynamic_content_for qs)
          (effective_cached_content standards st g) 4000 = Except.ok raw ∧
        parse_response decode raw = [])) :
    (∀ p ∈ qs,
      dictGet (standardize_batch decode oracle now standards st products).all_results
        (Json.str p.product_id) = some []) ∧
    (∀ h' qs', (h', qs') ∈ products_by_group standards products → h' ≠ g → ∀ q ∈ qs',
      dictGet (standardize_batch decode oracle now standards st products).all_results
          (Json.str q.product_id) =
        dictGet (group_contrib decode oracle now standards st (h', qs'))
          (Json.str q.product_id)) ∧
    mk_standardized_product = Except.error validation_error_text ∧
    process_batch_reconcile
        (standardize_batch decode oracle now standards st products).all_results
        (products.map (fun p => p.product_id)) =
      ((products.map (fun p => p.product_id)).map
        (fun pid => ⟨pid, "failed", some validation_error_text⟩), true) := by
  refine ⟨?_, ?_, rfl, ?_⟩
  · intro p hp
    have hkeyp : group_key standards p = g :=
      (products_by_group_sound standards products (g, qs) hmem p hp).1
    have hmem' : (group_key standards p, qs) ∈ products_by_group standards products := by
      rw [hkeyp]
      exact hmem
    have hG := standardize_batch_get_own decode oracle now standards st products hnd hown
      qs p hmem' hp
    have hval : dictGet (group_contrib decode oracle now standards st
        (group_key standards p, qs)) (Json.str p.product_id) = some [] := by
      rw [hkeyp]
      unfold group_contrib
      dsimp only
      rw [if_neg hgU]
      exact process_group_get_nil decode oracle now standards st g qs hav hfail p hp
    exact hG.trans hval
  · intro h' qs' hmem' hne q hq
    have hkeyq : group_key standards q = h' :=
      (products_by_group_sound standards products (h', qs') hmem' q hq).1
    have hmem'' : (group_key standards q, qs') ∈ products_by_group standards products := by
      rw [hkeyq]
      exact hmem'
    have hG := standardize_batch_get_own decode oracle now standards st products hnd hown
      qs' q hmem'' hq
    rw [hkeyq] at hG
    exact hG
  · have hne : products ≠ [] := by
      intro h
      rw [h] at hmem
      simp [products_by_group] at hmem
    obtain ⟨p0, hp0⟩ : ∃ p0, p0 ∈ products := by
      cases products with
      | nil => exact absurd rfl hne
      | cons a l => exact ⟨a, List.mem_cons_self _ _⟩
    have hany : ((products.map (fun p => p.product_id)).any
        (fun pid => (dictGet (standardize_batch decode oracle now standards st
          products).all_results (Json.str pid)).isSome)) = true := by
      rw [List.any_eq_true]
      exact ⟨p0.product_id, List.mem_map_of_mem _ hp0,
        standardize_batch_covers decode oracle now standards st products p0 hp0⟩
    unfold process_batch_reconcile
    rw [if_pos hany]

/-- Witness for the amended C1: a two-partition batch whose oracle fails every
call; the `"26.20"` partition's product is assigned the empty result list, the
`"27.11"` partition's product keeps its own partition's contribution, and the
cycle's persisted status updates mark both claimed products failed with the
validation error text. -/
theorem C1_failed_partition_cycle_marks_all_failed_witness :
    (([demoProduct1, demoProduct2].map (fun p => p.product_id)).Nodup) ∧
    (("26.20", [demoProduct1]) ∈ products_by_group demoStandards2
      [demoProduct1, demoProduct2]) ∧
    ("26.20" ≠ "UNMAPPED") ∧
    (cache_available demoStandards2 ⟨[], []⟩ "26.20" = true) ∧
    ((∀ p ∈ [demoProduct1],
      dictGet (standardize_batch (fun _ => none) demoFailOracle 0 demoStandards2 ⟨[], []⟩
        [demoProduct1, demoProduct2]).all_results (Json.str p.product_id) = some []) ∧
    (∀ h' qs', (h', qs') ∈ products_by_group demoStandards2 [demoProduct1, demoProduct2] →
      h' ≠ "26.20" → ∀ q ∈ qs',
      dictGet (standardize_batch (fun _ => none) demoFailOracle 0 demoStandards2 ⟨[], []⟩
          [demoProduct1, demoProduct2]).all_results (Json.str q.product_id) =
        dictGet (group_contrib (fun _ => none) demoFailOracle 0 demoStandards2 ⟨[], []⟩
          (h', qs')) (Json.str q.product_id)) ∧
    mk_standardized_product = Except.error validation_error_text ∧
    process_batch_reconcile
        (standardize_batch (fun _ => none) demoFailOracle 0 demoStandards2 ⟨[], []⟩
          [demoProduct1, demoProduct2]).all_results
        ([demoProduct1, demoProduct2].map (fun p => p.product_id)) =
      (([demoProduct1, demoProduct2].map (fun p => p.product_id)).map
        (fun pid => ⟨pid, "failed", some validation_error_text⟩), true)) :=
  ⟨by decide, by decide, by decide, by decide,
    C1_failed_partition_cycle_marks_all_failed (fun _ => none) demoFailOracle 0 demoStandards2
      ⟨[], []⟩ [demoProduct1, demoProduct2] "26.20" [demoProduct1]
      (by decide) (by decide) (by decide) (by decide) (by decide)
      (Or.inl ⟨"Connection error", rfl⟩)⟩

/-- One `standardized_attributes` record in exactly the output format the
service's own prompt template documents (ai_standardizer.py lines 144-157):
`standard_name`, `standard_value`, `unit`, `characteristic_type`. -/
def c2_attr_record : Json :=
  .obj (.cons "standard_name" (.str "Цвет")
    (.cons "standard_value" (.str "красный")
      (.cons "unit" .null
        (.cons "characteristic_type" (.str "color") .nil))))

/-- A raw oracle response in the documented format, for product `"p1"`. -/
def c2_raw : String :=
  "[\x7b\"product_id\": \"p1\", \"standardized_attributes\": [\x7b\"standard_name\": \"Цвет\", \"standard_value\": \"красный\", \"unit\": null, \"characteristic_type\": \"color\"\x7d]\x7d]"

/-- The JSON value `json.loads` yields for `c2_raw`. -/
def c2_parsed : Json :=
  .arr (.cons (.obj (.cons "product_id" (.str "p1")
    (.cons "standardized_attributes" (.arr (.cons c2_attr_record .nil)) .nil))) .nil)

/-- `json.loads` modelled at the only string this scenario decodes. -/
def c2_decode : String → Option Json := fun s => if s = c2_raw then some c2_parsed else none

set_option maxRecDepth 16384 in
/-- C2 (code bug): the per-record conversion of `_parse_response` can never
succeed — `StandardizedAttribute` declares `original_name` and `original_value`
as required fields, and the constructor call supplies neither (while passing
`unit`, which is not a field of the model at all), so pydantic raises for every
record and the per-record `except` skips it.  Consequently a response in
exactly the format the service's own prompt documents still yields an empty
attribute list for its element: elements lacking a `product_id` are indeed
dropped silently, but no "successfully converted" record can ever be kept.
The spec-modelled conversion (`spec_convert_attribute`, following section 3's
optional `originalName?`/`originalValue?`) succeeds on the same record,
exhibiting the divergence. -/
theorem C2_documented_record_dropped :
    (∀ attr : Json, (mk_standardized_attribute attr).toOption = none) ∧
    parse_response c2_decode c2_raw = [(Json.str "p1", [])] ∧
    spec_convert_attribute c2_attr_record =
      some ⟨"Цвет", "красный", none, "color", none, none⟩ := by
  refine ⟨?_, by decide, by decide⟩
  intro attr
  cases attr <;> rfl
